import Mathlib

/-!
Verification of the golongtail command-line front end (cmd/longtail/main.go)
against its natural-language specification.

Paths and other Go strings are modelled as lists of characters; unsigned
machine integers are modelled as Nat with explicit reduction modulo 2 ^ 64
or 2 ^ 32 where Go wraps. External calls (longtaillib, blob stores, the
file system) are modelled as oracle records passed to the embedded
functions, and the observable effects of each embedded function are
returned as an explicit event trace.

The file is organised as definitions first, then theorems.
-/

namespace Golongtail

/-- Go strings, modelled as lists of characters. -/
abbrev GoStr := List Char

/-! ## normalizePath (main.go lines 29-34)

Go source:
  doubleForwardRemoved := strings.Replace(path, "//", "/", -1)
  doubleBackwardRemoved := strings.Replace(doubleForwardRemoved, doubleBackslash, "/", -1)
  backwardRemoved := strings.Replace(doubleBackwardRemoved, singleBackslash, "/", -1)

strings.Replace with count -1 replaces every non-overlapping occurrence,
scanning left to right. For the two-character patterns this is replacePair,
for the one-character pattern it is replaceChar. -/

/-- Models Go strings.Replace(s, xy, r, -1) for a two-character pattern xy
and a one-character replacement r: non-overlapping, left to right. -/
def replacePair (x y r : Char) : List Char → List Char
  | a :: b :: rest =>
    if a = x ∧ b = y then r :: replacePair x y r rest
    else a :: replacePair x y r (b :: rest)
  | s => s

/-- Models Go strings.Replace(s, x, r, -1) for a one-character pattern. -/
def replaceChar (x r : Char) (s : List Char) : List Char :=
  s.map (fun a => if a = x then r else a)

/-- main.go normalizePath: collapse double forward slashes
(doubleForwardRemoved), then replace double backslashes
(doubleBackwardRemoved), then single backslashes (backwardRemoved), all
with a forward slash. -/
def normalizePath (p : GoStr) : GoStr :=
  replaceChar '\\' '/' (replacePair '\\' '\\' '/' (replacePair '/' '/' '/' p))

/-- True when s contains the two-character pattern xy at some position. -/
def hasPair (x y : Char) : List Char → Bool
  | a :: b :: rest => if a = x ∧ b = y then true else hasPair x y (b :: rest)
  | _ => false

/-- C10 counterexample input: three forward slashes. -/
def tripleSlash : GoStr := ['/', '/', '/']

/-! ## Target folder resolution (main.go lines 573-584)

Go source, for an empty target-folder-path argument:
  urlSplit := strings.Split(normalizePath(sourceFilePath), "/")
  sourceName := urlSplit[len(urlSplit)-1]
  sourceNameSplit := strings.Split(sourceName, ".")
  resolvedTargetFolderPath = sourceNameSplit[0]
  (error when the result is empty) -/

/-- Models Go strings.Split(s, sep) for a one-character separator: the
result always has at least one group, and splitting the empty string
yields one empty group, exactly as in Go. -/
def splitOnChar (sep : Char) : List Char → List (List Char)
  | [] => [[]]
  | c :: rest =>
    match splitOnChar sep rest with
    | [] => [[]]
    | g :: gs => if c = sep then [] :: g :: gs else (c :: g) :: gs

/-- Go slice indexing v[0] on a never-empty slice of strings. -/
def goHead : List (List Char) → List Char
  | [] => []
  | a :: _ => a

/-- Go slice indexing v[len(v)-1] on a never-empty slice of strings. -/
def goLast : List (List Char) → List Char
  | [] => []
  | [a] => a
  | _ :: b :: rest => goLast (b :: rest)

/-- main.go lines 573-584: resolve the target folder. An empty
target-folder-path argument is replaced by the first dot-separated part of
the last slash-separated part of the normalized source file path; an empty
resolution is an error. -/
def resolveTargetFolderPath (sourceFilePath targetFolderPath : GoStr) :
    Except String GoStr :=
  if targetFolderPath = [] then
    let urlSplit := splitOnChar '/' (normalizePath sourceFilePath)
    let sourceName := goLast urlSplit
    let sourceNameSplit := splitOnChar '.' sourceName
    let resolved := goHead sourceNameSplit
    if resolved = [] then
      .error "downSyncVersion: unable to resolve target path"
    else .ok resolved
  else .ok targetFolderPath

/-- Specification-side reading of the claim: the last slash-separated
segment of a path, written as the reversed longest slash-free suffix. -/
def lastSlashSegment (s : GoStr) : GoStr :=
  (s.reverse.takeWhile (fun c => c ≠ '/')).reverse

/-- Specification-side reading of the claim: a name truncated at its
first dot. -/
def truncAtFirstDot (s : GoStr) : GoStr :=
  s.takeWhile (fun c => c ≠ '.')

end Golongtail

deriving instance DecidableEq for Except

namespace Golongtail

/-! ## Data model: version index and store index

A Longtail_VersionIndex is a parsed version manifest. The embedded fields
are the ones the command-line front end reads: GetHashIdentifier,
GetTargetChunkSize, the asset table (paths, sizes, content hashes,
permissions) and the chunk decomposition tables used by the stats
command. GetAssetCount is the common length of the per-asset tables. -/

structure VersionIndex where
  hashIdentifier : Nat
  targetChunkSize : Nat
  assetPaths : List GoStr
  assetSizes : List Nat
  assetHashes : List Nat
  assetPermissions : List Nat
  chunkHashes : List Nat
  assetChunkCounts : List Nat
  assetChunkIndexStarts : List Nat
  assetChunkIndexes : List Nat
deriving DecidableEq

/-- GetAssetCount, the length of the per-asset tables. -/
def VersionIndex.getAssetCount (vi : VersionIndex) : Nat :=
  vi.assetSizes.length

/-- GetAssetPath(i). -/
def VersionIndex.getAssetPath (vi : VersionIndex) (i : Nat) : GoStr :=
  vi.assetPaths.getD i []

/-- GetAssetPermissions(i). -/
def VersionIndex.getAssetPermissions (vi : VersionIndex) (i : Nat) : Nat :=
  vi.assetPermissions.getD i 0

/-- A Longtail_StoreIndex: the block table and the flat chunk table. -/
structure StoreIndex where
  blockHashes : List Nat
  chunkHashes : List Nat
deriving DecidableEq

/-- main.go: const noCompressionType = uint32(0). -/
def noCompressionType : Nat := 0

/-! ## Downsync validation phase (main.go lines 798-838)

The three source lookup maps are Go maps built by one loop over the
source asset sizes; a later duplicate path overwrites an earlier one. -/

/-- Go map lookup over an insertion list: the last binding wins, absent
keys give none. -/
def goMapGet (m : List (GoStr × Nat)) (k : GoStr) : Option Nat :=
  m.foldl (fun acc kv => if kv.1 = k then some kv.2 else acc) none

/-- assetSizeLookup insertion list: path of asset i maps to its size. -/
def sourceSizeEntries (src : VersionIndex) : List (GoStr × Nat) :=
  (List.range src.getAssetCount).map
    (fun i => (src.getAssetPath i, src.assetSizes.getD i 0))

/-- assetHashLookup insertion list: path of asset i maps to its hash. -/
def sourceHashEntries (src : VersionIndex) : List (GoStr × Nat) :=
  (List.range src.getAssetCount).map
    (fun i => (src.getAssetPath i, src.assetHashes.getD i 0))

/-- assetPermissionLookup insertion list. -/
def sourcePermEntries (src : VersionIndex) : List (GoStr × Nat) :=
  (List.range src.getAssetCount).map
    (fun i => (src.getAssetPath i, src.getAssetPermissions i))

/-- The body of the validation loop for re-indexed asset i: missing path,
then size mismatch, then hash mismatch, then (only with
retain-permissions) permission mismatch, in that order. -/
def checkValidateAsset (retainPermissions : Bool)
    (src validateVI : VersionIndex) (i : Nat) : Except String Unit :=
  let validatePath := validateVI.getAssetPath i
  let validateSize := validateVI.assetSizes.getD i 0
  let validateHash := validateVI.assetHashes.getD i 0
  match goMapGet (sourceSizeEntries src) validatePath with
  | none => .error "downSyncVersion: failed validation: invalid path"
  | some size =>
    let hash := (goMapGet (sourceHashEntries src) validatePath).getD 0
    if size ≠ validateSize then
      .error "downSyncVersion: failed validation: asset size mismatch"
    else if hash ≠ validateHash then
      .error "downSyncVersion: failed validation: asset hash mismatch"
    else if retainPermissions then
      let validatePermissions := validateVI.getAssetPermissions i
      let permissions := (goMapGet (sourcePermEntries src) validatePath).getD 0
      if permissions ≠ validatePermissions then
        .error "downSyncVersion: failed validation: asset permission mismatch"
      else .ok ()
    else .ok ()

/-- The Go for-range loop over the re-indexed assets, stopping at the
first failed check. -/
def validateAssetsLoop (retainPermissions : Bool)
    (src validateVI : VersionIndex) : List Nat → Except String Unit
  | [] => .ok ()
  | i :: rest =>
    match checkValidateAsset retainPermissions src validateVI i with
    | .error e => .error e
    | .ok _ => validateAssetsLoop retainPermissions src validateVI rest

/-- main.go lines 798-838: the comparison part of the downsync validate
phase, given the source version index and the re-indexed target version
index. -/
def downsyncValidate (retainPermissions : Bool)
    (src validateVI : VersionIndex) : Except String Unit :=
  if validateVI.getAssetCount ≠ src.getAssetCount then
    .error "downSyncVersion: failed validation: asset count mismatch"
  else
    validateAssetsLoop retainPermissions src validateVI
      (List.range validateVI.getAssetCount)

/-- Specification-side statement of the claim C2 conditions: equal asset
counts, every re-indexed path present among the source paths, sizes and
content hashes agreeing with the source entry for that path, and
permissions agreeing when retain-permissions is enabled. -/
def validateSpecHolds (retainPermissions : Bool)
    (src validateVI : VersionIndex) : Prop :=
  validateVI.getAssetCount = src.getAssetCount ∧
  ∀ i, i < validateVI.getAssetCount →
    (goMapGet (sourceSizeEntries src) (validateVI.getAssetPath i)).isSome = true ∧
    (goMapGet (sourceSizeEntries src) (validateVI.getAssetPath i)).getD 0 =
      validateVI.assetSizes.getD i 0 ∧
    (goMapGet (sourceHashEntries src) (validateVI.getAssetPath i)).getD 0 =
      validateVI.assetHashes.getD i 0 ∧
    (retainPermissions = true →
      (goMapGet (sourcePermEntries src) (validateVI.getAssetPath i)).getD 0 =
        validateVI.getAssetPermissions i)

instance (retainPermissions : Bool) (src validateVI : VersionIndex) :
    Decidable (validateSpecHolds retainPermissions src validateVI) := by
  unfold validateSpecHolds
  exact instDecidableAnd

/-! ## Downsync (main.go lines 548-844)

External calls are modelled by a DownsyncEnv oracle; observable actions
are returned as a DownsyncEvent trace. Buffers returned by ReadFromURI
are abstract handles (Nat). -/

inductive DownsyncEvent where
  | scanTarget (path : GoStr)
  | readSourceIndex (uri : GoStr)
  | targetIndexRead (rootPath : GoStr) (indexPath : GoStr)
      (targetChunkSize : Nat) (compressionType : Nat) (hashIdentifier : Nat)
  | getExistingContent (chunkHashes : List Nat) (minBlockUsagePercent : Nat)
  | changeVersion (targetPath : GoStr) (retainPermissions : Bool)
  | flushStores
  | validateReindex (targetPath : GoStr) (targetChunkSize : Nat)
deriving DecidableEq

structure DownsyncEnv where
  makeRegexPathFilter : Except String Unit
  readFromURI : GoStr → Except String Nat
  readVersionIndexFromBuffer : Nat → Except String VersionIndex
  createBlockStore : Except String Unit
  getHashAPI : Nat → Except String Unit
  targetIndexRead :
    GoStr → GoStr → Nat → Nat → Nat → Except String VersionIndex
  createVersionDiff : VersionIndex → VersionIndex → Except String Unit
  getRequiredChunkHashes : VersionIndex → Except String (List Nat)
  getExistingStoreIndex : List Nat → Nat → Except String StoreIndex
  changeVersion : Except String Unit
  flushStores : Except String Unit
  getFilesRecursively : GoStr → Except String Unit
  createVersionIndex : GoStr → Nat → Except String VersionIndex

/-- main.go lines 634-841: the part of downSyncVersion that runs after
the source version index has been read and the asynchronous target index
read has been issued. The target index result is consumed where
targetIndexReader.get() is called, after the block-store setup and the
GetHashAPI lookup. -/
def downSyncAfterTargetRead (env : DownsyncEnv)
    (resolvedTargetFolderPath targetIndexPath localCachePath : GoStr)
    (retainPermissions validate : Bool) (srcVI : VersionIndex) :
    Except String Unit × List DownsyncEvent :=
  match env.createBlockStore with
  | .error e => (.error e, [])
  | .ok _ =>
  match env.getHashAPI srcVI.hashIdentifier with
  | .error e => (.error e, [])
  | .ok _ =>
  match env.targetIndexRead resolvedTargetFolderPath targetIndexPath
      srcVI.targetChunkSize noCompressionType srcVI.hashIdentifier with
  | .error e => (.error e, [])
  | .ok targetVersionIndex =>
  match env.createVersionDiff targetVersionIndex srcVI with
  | .error e => (.error e, [])
  | .ok _ =>
  match env.getRequiredChunkHashes srcVI with
  | .error e => (.error e, [])
  | .ok chunkHashes =>
  match env.getExistingStoreIndex chunkHashes 0 with
  | .error e => (.error e, [.getExistingContent chunkHashes 0])
  | .ok _ =>
  match env.changeVersion with
  | .error e =>
    (.error e, [.getExistingContent chunkHashes 0,
      .changeVersion (normalizePath resolvedTargetFolderPath) retainPermissions])
  | .ok _ =>
  match env.flushStores with
  | .error e =>
    (.error e, [.getExistingContent chunkHashes 0,
      .changeVersion (normalizePath resolvedTargetFolderPath) retainPermissions,
      .flushStores])
  | .ok _ =>
  let base := [DownsyncEvent.getExistingContent chunkHashes 0,
    .changeVersion (normalizePath resolvedTargetFolderPath) retainPermissions,
    .flushStores]
  if validate then
    match env.getFilesRecursively (normalizePath resolvedTargetFolderPath) with
    | .error e => (.error e, base)
    | .ok _ =>
    match env.createVersionIndex (normalizePath resolvedTargetFolderPath)
        srcVI.targetChunkSize with
    | .error e =>
      (.error e, base ++ [.validateReindex
        (normalizePath resolvedTargetFolderPath) srcVI.targetChunkSize])
    | .ok validateVersionIndex =>
      (downsyncValidate retainPermissions srcVI validateVersionIndex,
        base ++ [.validateReindex
          (normalizePath resolvedTargetFolderPath) srcVI.targetChunkSize])
  else (.ok (), base)

/-- main.go lines 548-844: downSyncVersion. Returns the Go error result
together with the trace of observable actions. -/
def downSyncVersion (env : DownsyncEnv)
    (blobStoreURI sourceFilePath targetFolderPath targetIndexPath
      localCachePath : GoStr)
    (retainPermissions validate : Bool) :
    Except String Unit × List DownsyncEvent :=
  match env.makeRegexPathFilter with
  | .error e => (.error e, [])
  | .ok _ =>
  match resolveTargetFolderPath sourceFilePath targetFolderPath with
  | .error e => (.error e, [])
  | .ok resolvedTargetFolderPath =>
  let scanEvents : List DownsyncEvent :=
    if targetIndexPath = [] then [.scanTarget resolvedTargetFolderPath] else []
  match env.readFromURI sourceFilePath with
  | .error e => (.error e, scanEvents ++ [.readSourceIndex sourceFilePath])
  | .ok vbuffer =>
  match env.readVersionIndexFromBuffer vbuffer with
  | .error e => (.error e, scanEvents ++ [.readSourceIndex sourceFilePath])
  | .ok sourceVersionIndex =>
  let (res, evs) := downSyncAfterTargetRead env resolvedTargetFolderPath
    targetIndexPath localCachePath retainPermissions validate
    sourceVersionIndex
  (res, scanEvents ++
    [.readSourceIndex sourceFilePath,
     .targetIndexRead resolvedTargetFolderPath targetIndexPath
       sourceVersionIndex.targetChunkSize noCompressionType
       sourceVersionIndex.hashIdentifier] ++ evs)

/-! Concrete inputs for downsync witnesses. -/

/-- A small concrete version index used by witnesses. -/
def wVersionIndex : VersionIndex :=
  ⟨7, 32768, [['a']], [3], [11], [420], [5], [1], [0], [0]⟩

/-- A concrete downsync oracle where every external call succeeds. -/
def wDownsyncEnv : DownsyncEnv :=
  ⟨.ok (), fun _ => .ok 0, fun _ => .ok wVersionIndex, .ok (),
   fun _ => .ok (), fun _ _ _ _ _ => .ok wVersionIndex,
   fun _ _ => .ok (), fun _ => .ok [5], fun _ _ => .ok ⟨[9], [5]⟩,
   .ok (), .ok (), fun _ => .ok (), fun _ _ => .ok wVersionIndex⟩

/-! ## Prune (main.go lines 2171-2398)

pruneStore opens the remote store read-only exactly when dry-run is set,
reads the list of version index paths (and optionally a parallel list of
per-version store index paths, whose length must match), computes a block
set per version, unions them, and then either reports the kept count
(dry-run) or prunes the store.

The Go implementation processes versions in parallel batches and merges
each batch into the usedBlocks map in batch order; the embedding is the
sequential linearization of that scheme, which computes the same per
version results and the same key set. The usedBlocks Go map is modelled
as its key set in first-insertion order; only its size is observable. -/

inductive PruneEvent where
  | openStore (readOnly : Bool)
  | readURI (path : GoStr)
  | getExistingContent (chunkHashes : List Nat)
  | warnMissingData (path : GoStr)
  | writeVersionLocalStoreIndex (path : GoStr)
  | printWouldKeep (n : Nat)
  | pruneBlocks (keepBlockHashes : List Nat)
  | printPruned (n : Nat)
  | flushStore
deriving DecidableEq

structure PruneEnv where
  readFromURI : GoStr → Except String Nat
  readVersionIndexFromBuffer : Nat → Except String VersionIndex
  readStoreIndexFromBuffer : Nat → Except String StoreIndex
  validateStore : StoreIndex → VersionIndex → Bool
  getExistingStoreIndex : List Nat → Except String StoreIndex
  writeStoreIndexToBuffer : StoreIndex → Except String Nat
  writeToURI : GoStr → Nat → Except String Unit
  pruneBlocks : List Nat → Except String Nat
  flushStore : Except String Unit

/-- Outcome of the attempt (main.go lines 2279-2292) to load the
per-version store index file. earlySkip models the Go slip at line 2284:
a store index buffer that fails to parse sends the still-nil outer err to
the batch channel, so the goroutine returns without contributing blocks
and without an error. invalid carries the pending Go err variable (set
only when reading the file failed). -/
inductive FileIndexOutcome where
  | earlySkip
  | valid (si : StoreIndex)
  | invalid (errVar : Option String)
deriving DecidableEq

/-- main.go lines 2278-2292: try the per-version store index file. The
file is looked at only when a path is given and write-version-local-
store-index is not set; a loaded index that fails ValidateStore is
disposed, leaving the invalid outcome. -/
def readFileStoreIndex (env : PruneEnv) (writeVersionLocalStoreIndex : Bool)
    (versionLocalStoreIndexFilePath : GoStr) (srcVI : VersionIndex) :
    FileIndexOutcome × List PruneEvent :=
  if versionLocalStoreIndexFilePath ≠ [] ∧ writeVersionLocalStoreIndex = false then
    match env.readFromURI versionLocalStoreIndexFilePath with
    | .error e => (.invalid (some e), [.readURI versionLocalStoreIndexFilePath])
    | .ok sbuffer =>
      match env.readStoreIndexFromBuffer sbuffer with
      | .error _ => (.earlySkip, [.readURI versionLocalStoreIndexFilePath])
      | .ok si =>
        if env.validateStore si srcVI then
          (.valid si, [.readURI versionLocalStoreIndexFilePath])
        else (.invalid none, [.readURI versionLocalStoreIndexFilePath])
  else (.invalid none, [])

/-- main.go lines 2314-2333: after a store index for the version is in
hand, collect its block hashes (appended to blockHashesPerBatch at line
2314, before the write-back guard) and, when a per-version index path is
given together with write-version-local-store-index and this is not a
dry run, write the index back to that path. A WriteStoreIndexToBuffer
failure sends the nil outer err, so the goroutine returns without an
error while the already-appended block hashes still count; a WriteToURI
failure sends its error. -/
def pruneAfterStoreIndex (env : PruneEnv)
    (writeVersionLocalStoreIndex dryRun : Bool)
    (versionLocalStoreIndexFilePath : GoStr) (si : StoreIndex) :
    Except String (List Nat) × List PruneEvent :=
  if versionLocalStoreIndexFilePath ≠ [] ∧
      writeVersionLocalStoreIndex = true ∧ dryRun = false then
    match env.writeStoreIndexToBuffer si with
    | .error _ => (.ok si.blockHashes, [])
    | .ok sbuffer =>
      match env.writeToURI versionLocalStoreIndexFilePath sbuffer with
      | .error e =>
        (.error e, [.writeVersionLocalStoreIndex versionLocalStoreIndexFilePath])
      | .ok _ =>
        (.ok si.blockHashes,
         [.writeVersionLocalStoreIndex versionLocalStoreIndexFilePath])
  else (.ok si.blockHashes, [])

/-- main.go lines 2265-2336: the per-version goroutine body of
pruneStore. Returns the block hashes the version contributes (an empty
list both for the silent-skip paths and for a dry-run missing-content
warning) or the error sent to the batch channel. -/
def pruneProcessVersion (env : PruneEnv)
    (writeVersionLocalStoreIndex dryRun : Bool)
    (storageURI sourceFilePath versionLocalStoreIndexFilePath : GoStr) :
    Except String (List Nat) × List PruneEvent :=
  match env.readFromURI sourceFilePath with
  | .error e => (.error e, [.readURI sourceFilePath])
  | .ok vbuffer =>
  match env.readVersionIndexFromBuffer vbuffer with
  | .error _ => (.ok [], [.readURI sourceFilePath])
  | .ok sourceVersionIndex =>
  let (fileOutcome, fileEvs) := readFileStoreIndex env
    writeVersionLocalStoreIndex versionLocalStoreIndexFilePath
    sourceVersionIndex
  let pre := PruneEvent.readURI sourceFilePath :: fileEvs
  match fileOutcome with
  | .earlySkip => (.ok [], pre)
  | .valid si =>
    let (r, evs) := pruneAfterStoreIndex env writeVersionLocalStoreIndex
      dryRun versionLocalStoreIndexFilePath si
    (r, pre ++ evs)
  | .invalid errVar =>
    match env.getExistingStoreIndex sourceVersionIndex.chunkHashes with
    | .error _ =>
      (match errVar with
       | some e => .error e
       | none => .ok [],
       pre ++ [.getExistingContent sourceVersionIndex.chunkHashes])
    | .ok si =>
      if env.validateStore si sourceVersionIndex then
        let (r, evs) := pruneAfterStoreIndex env writeVersionLocalStoreIndex
          dryRun versionLocalStoreIndexFilePath si
        (r, pre ++ [.getExistingContent sourceVersionIndex.chunkHashes] ++ evs)
      else
        if dryRun then
          (.ok [],
           pre ++ [.getExistingContent sourceVersionIndex.chunkHashes,
             .warnMissingData sourceFilePath])
        else
          (.error "Data is missing in store",
           pre ++ [.getExistingContent sourceVersionIndex.chunkHashes])

/-- Merge the block hashes of one version into the usedBlocks key set,
keeping first-insertion order. -/
def insertUsedBlocks (used : List Nat) (hs : List Nat) : List Nat :=
  hs.foldl (fun acc h => if h ∈ acc then acc else acc ++ [h]) used

/-- The scanning loop of pruneStore over (version path, per-version
index path) pairs, linearized; stops at the first version error. -/
def pruneScanVersions (env : PruneEnv)
    (writeVersionLocalStoreIndex dryRun : Bool) (storageURI : GoStr) :
    List (GoStr × GoStr) → List Nat →
      Except String (List Nat) × List PruneEvent
  | [], used => (.ok used, [])
  | (src, vlsi) :: rest, used =>
    let (r, evs) := pruneProcessVersion env writeVersionLocalStoreIndex
      dryRun storageURI src vlsi
    match r with
    | .error e => (.error e, evs)
    | .ok hs =>
      let (r2, evs2) := pruneScanVersions env writeVersionLocalStoreIndex
        dryRun storageURI rest (insertUsedBlocks used hs)
      (r2, evs ++ evs2)

/-- The length agreement check of main.go line 2234: when a list of
per-version store index paths is given it must be as long as the list of
version index paths. -/
def pruneLengthOk (sourceFilePaths : List GoStr)
    (versionLocalStoreIndexFilePaths : Option (List GoStr)) : Bool :=
  match versionLocalStoreIndexFilePaths with
  | some ps => sourceFilePaths.length = ps.length
  | none => true

/-- The per-version (source path, per-version index path) pairs the scan
loop iterates over; the second component is empty when no list of
per-version store index paths was given. -/
def prunePairs (sourceFilePaths : List GoStr)
    (versionLocalStoreIndexFilePaths : Option (List GoStr)) :
    List (GoStr × GoStr) :=
  match versionLocalStoreIndexFilePaths with
  | some ps => sourceFilePaths.zip ps
  | none => sourceFilePaths.map (fun s => (s, []))

/-- main.go lines 2171-2398: pruneStore. The store is opened read-only
exactly when dry-run is set (lines 2185-2190). The optional parallel
list of per-version store index paths must have the same length as the
version list. In dry-run the function prints the kept count and returns
before any PruneBlocks call (lines 2359-2362); otherwise it prunes,
prints the pruned count and flushes. -/
def pruneStore (env : PruneEnv) (storageURI : GoStr)
    (sourceFilePaths : List GoStr)
    (versionLocalStoreIndexFilePaths : Option (List GoStr))
    (writeVersionLocalStoreIndex dryRun : Bool) :
    Except String Unit × List PruneEvent :=
  let openEv : List PruneEvent := [.openStore dryRun]
  if pruneLengthOk sourceFilePaths versionLocalStoreIndexFilePaths then
    let pairs := prunePairs sourceFilePaths versionLocalStoreIndexFilePaths
    let (scanRes, scanEvs) := pruneScanVersions env
      writeVersionLocalStoreIndex dryRun storageURI pairs []
    match scanRes with
    | .error e => (.error e, openEv ++ scanEvs)
    | .ok used =>
      if dryRun then
        (.ok (), openEv ++ scanEvs ++ [.printWouldKeep used.length])
      else
        match env.pruneBlocks used with
        | .error e => (.error e, openEv ++ scanEvs ++ [.pruneBlocks used])
        | .ok n =>
          match env.flushStore with
          | .error e =>
            (.error e, openEv ++ scanEvs ++
              [.pruneBlocks used, .printPruned n, .flushStore])
          | .ok _ =>
            (.ok (), openEv ++ scanEvs ++
              [.pruneBlocks used, .printPruned n, .flushStore])
  else
    (.error "Number of files does not match", openEv)

/-- Specification-side condition under which claim C4 expects the remote
store index query: no per-version index file is given, or the
write-version-local-store-index option is set, or the file fails to
read, or it parses and fails ValidateStore against the version index. -/
def fileIndexUnavailable (env : PruneEnv)
    (writeVersionLocalStoreIndex : Bool)
    (versionLocalStoreIndexFilePath : GoStr) (srcVI : VersionIndex) : Prop :=
  versionLocalStoreIndexFilePath = [] ∨
  writeVersionLocalStoreIndex = true ∨
  (∃ e, env.readFromURI versionLocalStoreIndexFilePath = .error e) ∨
  (∃ sb si, env.readFromURI versionLocalStoreIndexFilePath = .ok sb ∧
    env.readStoreIndexFromBuffer sb = .ok si ∧
    env.validateStore si srcVI = false)

/-! Concrete inputs for prune witnesses and the C4 counterexample. -/

/-- Store index loaded from the per-version file in the C4
counterexample: its block set is the single block 1. -/
def cFileStoreIndex : StoreIndex := ⟨[1], [5]⟩

/-- Store index returned by the remote query in the C4 counterexample:
its block set is the single block 2. -/
def cRemoteStoreIndex : StoreIndex := ⟨[2], [5]⟩

/-- Prune oracle for the C4 counterexample: the version index loads, the
per-version store index file at path f is readable, parses to
cFileStoreIndex and validates, and the remote query returns
cRemoteStoreIndex. -/
def cPruneEnv : PruneEnv :=
  ⟨fun p => if p = ['s'] then .ok 1 else .ok 2,
   fun b => if b = 1 then .ok wVersionIndex else .error "not a version index",
   fun b => if b = 2 then .ok cFileStoreIndex else .error "not a store index",
   fun _ _ => true,
   fun _ => .ok cRemoteStoreIndex,
   fun _ => .ok 3,
   fun _ _ => .ok (),
   fun _ => .ok 0,
   .ok ()⟩

/-! ## filepath.Clean, Join and Dir (Go standard library, unix separator)

The zip-slip check of cloneOneVersion (main.go lines 1858-1864) uses
filepath.Join and filepath.Clean, and the extraction uses filepath.Dir.
These are external standard library functions, modelled here by their
lexical algorithm with the unix separator. -/

/-- The component loop of Clean over the slash-separated components,
with the kept components on a stack (most recent first). Empty and dot
components are dropped; a dot-dot pops the most recent kept component;
at the top of the stack a dot-dot is dropped when the path is rooted and
kept when it is not (consecutive kept dot-dots stack up). -/
def cleanLoop (rooted : Bool) : List GoStr → List GoStr → List GoStr
  | stack, [] => stack
  | stack, c :: cs =>
    if c = [] ∨ c = ['.'] then cleanLoop rooted stack cs
    else if c = ['.', '.'] then
      match stack with
      | [] =>
        if rooted then cleanLoop rooted [] cs
        else cleanLoop rooted [['.', '.']] cs
      | top :: rest =>
        if rooted = false ∧ top = ['.', '.'] then
          cleanLoop rooted (['.', '.'] :: top :: rest) cs
        else cleanLoop rooted rest cs
    else cleanLoop rooted (c :: stack) cs

/-- Join kept components with slashes. -/
def joinComponents : List GoStr → GoStr
  | [] => []
  | [c] => c
  | c :: c2 :: cs => c ++ '/' :: joinComponents (c2 :: cs)

/-- Reassemble the cleaned components: a rooted path gets its leading
slash back, and an empty relative result is the dot path. -/
def goCleanAssemble (rooted : Bool) (body : GoStr) : GoStr :=
  if rooted then '/' :: body
  else if body = [] then ['.'] else body

/-- Models Go path/filepath.Clean with the unix separator. -/
def filepathClean (p : GoStr) : GoStr :=
  if p = [] then ['.']
  else
    goCleanAssemble (decide (p.head? = some '/'))
      (joinComponents
        (cleanLoop (decide (p.head? = some '/')) [] (splitOnChar '/' p)).reverse)

/-- Models Go path/filepath.Join for the two elements the zip extraction
joins: non-empty elements joined with a slash, then cleaned; all
elements empty gives the empty path. -/
def filepathJoin (a b : GoStr) : GoStr :=
  if a = [] ∧ b = [] then []
  else if a = [] then filepathClean b
  else if b = [] then filepathClean a
  else filepathClean (a ++ '/' :: b)

/-- Models Go path/filepath.Dir: everything up to the final slash,
cleaned; a path without a slash has directory dot. -/
def filepathDir (p : GoStr) : GoStr :=
  filepathClean ((p.reverse.dropWhile (fun c => c ≠ '/')).reverse)

/-! ## Zip extraction (main.go lines 1847-1893, extractAndWriteFile) -/

/-- One zip archive entry as the extraction reads it. -/
structure ZipEntry where
  name : GoStr
  isDir : Bool
  mode : Nat
deriving DecidableEq

inductive ExtractEvent where
  | mkdirAll (path : GoStr)
  | createFile (path : GoStr)
deriving DecidableEq

structure ExtractEnv where
  openEntry : Except String Unit
  openFile : GoStr → Except String Unit
  copy : Except String Unit

/-- main.go lines 1847-1886: extractAndWriteFile. The entry is opened,
the joined path is rejected unless Clean(target) plus the separator is a
leading piece of it, then a directory is created (or the parent
directory plus the file). Returns the Go error result and the trace of
file-system creations. -/
def extractAndWriteFile (env : ExtractEnv) (targetPath : GoStr)
    (f : ZipEntry) : Except String Unit × List ExtractEvent :=
  match env.openEntry with
  | .error e => (.error e, [])
  | .ok _ =>
    let path := filepathJoin targetPath f.name
    if ¬ ((filepathClean targetPath ++ ['/']).isPrefixOf path) then
      (.error ("illegal file path: " ++ String.mk path), [])
    else if f.isDir then
      (.ok (), [.mkdirAll path])
    else
      match env.openFile path with
      | .error e => (.error e, [.mkdirAll (filepathDir path)])
      | .ok _ =>
        match env.copy with
        | .error e => (.error e, [.mkdirAll (filepathDir path), .createFile path])
        | .ok _ => (.ok (), [.mkdirAll (filepathDir path), .createFile path])

/-- Specification-side reading of the claim: a path lies strictly inside
a directory when it is the cleaned directory, a slash, and a non-empty
remainder. -/
def strictlyInside (p d : GoStr) : Prop :=
  ∃ rel : GoStr, rel ≠ [] ∧ p = filepathClean d ++ '/' :: rel

/-- A concrete extraction oracle where every external call succeeds. -/
def wExtractEnv : ExtractEnv :=
  ⟨.ok (), fun _ => .ok (), .ok ()⟩

/-! ## Stats: asset fragmentation (main.go lines 1542-1569) -/

def U64MOD : Nat := 2 ^ 64

def U32MOD : Nat := 2 ^ 32

/-- The initial lastBlockIndex sentinel, Go expression complement of
uint64 zero. -/
def U64MAX : Nat := 2 ^ 64 - 1

/-- The block containing each chunk of asset a, in chunk order:
blockLookup applied to chunkHashes at assetChunkIndexes over the asset
chunk range. blockLookup is a Go map with default value 0, modelled as a
total function. -/
def assetBlockList (vi : VersionIndex) (blockLookup : Nat → Nat)
    (a : Nat) : List Nat :=
  (List.range (vi.assetChunkCounts.getD a 0)).map (fun k =>
    blockLookup (vi.chunkHashes.getD
      (vi.assetChunkIndexes.getD (vi.assetChunkIndexStarts.getD a 0 + k) 0) 0))

/-- The inner loop of main.go lines 1552-1561: a fragment is counted at
each chunk whose block differs from lastBlockIndex. -/
def goCountFrags : Nat → List Nat → Nat
  | _, [] => 0
  | last, b :: rest =>
    if b ≠ last then 1 + goCountFrags b rest else goCountFrags last rest

/-- main.go lines 1542-1562: assetFragmentCount, with lastBlockIndex
initialized to the all-ones sentinel for each asset. -/
def statsAssetFragmentCount (vi : VersionIndex)
    (blockLookup : Nat → Nat) : Nat :=
  (List.range vi.getAssetCount).foldl
    (fun acc a => acc + goCountFrags U64MAX (assetBlockList vi blockLookup a)) 0

/-- main.go lines 1563-1566: the reported Asset Fragmentation value:
uint64 multiply by 100, truncated divide by the asset count, wrapping
subtraction of 100 and the final uint32 cast. -/
def statsAssetFragmentation (vi : VersionIndex)
    (blockLookup : Nat → Nat) : Nat :=
  if 0 < vi.getAssetCount then
    (((100 * statsAssetFragmentCount vi blockLookup) % U64MOD) /
        vi.getAssetCount + (U64MOD - 100)) % U64MOD % U32MOD
  else 0

/-- Runs of equal adjacent values, continuing a run of the given value. -/
def countRunsFrom : Nat → List Nat → Nat
  | _, [] => 0
  | last, b :: rest =>
    if b = last then countRunsFrom last rest else 1 + countRunsFrom b rest

/-- The number of maximal runs of equal adjacent values. -/
def countRuns : List Nat → Nat
  | [] => 0
  | b :: rest => 1 + countRunsFrom b rest

/-- The claim reading of fragments: the total number of maximal runs of
consecutive chunks of one asset residing in the same block. -/
def claimFragments (vi : VersionIndex) (blockLookup : Nat → Nat) : Nat :=
  (List.range vi.getAssetCount).foldl
    (fun acc a => acc + countRuns (assetBlockList vi blockLookup a)) 0

/-- The fragmentation value the claim asserts the code reports. -/
def claimAssetFragmentation (vi : VersionIndex)
    (blockLookup : Nat → Nat) : Nat :=
  if 0 < vi.getAssetCount then
    (((100 * claimFragments vi blockLookup) % U64MOD) /
        vi.getAssetCount + (U64MOD - 100)) % U64MOD % U32MOD
  else 0

/-- The amended fragment count: an asset whose leading run has block
value equal to the all-ones sentinel loses that first run. -/
def amendedFragments (vi : VersionIndex) (blockLookup : Nat → Nat) : Nat :=
  (List.range vi.getAssetCount).foldl
    (fun acc a => acc + (countRuns (assetBlockList vi blockLookup a) -
      (if (assetBlockList vi blockLookup a).head? = some U64MAX
       then 1 else 0))) 0

/-- C6 counterexample version index: one asset with one chunk. -/
def fragVersionIndex : VersionIndex :=
  ⟨7, 32768, [['a']], [1], [0], [0], [9], [1], [0], [0]⟩

/-- C6 witness version index: two assets with one chunk each. -/
def frag2VersionIndex : VersionIndex :=
  ⟨7, 32768, [['a'], ['b']], [1, 1], [0, 0], [0, 0], [9], [1, 1], [0, 0],
   [0]⟩

/-- A block lookup placing every chunk in the all-ones block. -/
def fragBlockLookup : Nat → Nat := fun _ => U64MAX

/-! ## createBlockStoreForURI (main.go lines 36-79)

url.Parse is the Go standard library; its outcome is an input here: none
models a parse error, some a parsed URL with its scheme and path. The gs
and s3 branches construct external blob stores whose success is part of
the oracle. -/

structure GoURL where
  scheme : String
  path : String
deriving DecidableEq

structure BlockStoreEnv where
  newGCSBlobStore : Except String Unit
  newS3BlobStore : Except String Unit
  newRemoteBlockStore : Except String Unit

inductive BlockStoreResult where
  | remoteGCS
  | remoteS3
  | fsFromURL (path : String)
  | fsLocal (uri : String)
deriving DecidableEq

/-- panic models a Go runtime panic (string slice out of range). -/
inductive CreateBlockStoreOutcome where
  | ok (r : BlockStoreResult)
  | err (msg : String)
  | panic
deriving DecidableEq

/-- main.go lines 36-79: dispatch on the parsed scheme. gs and s3 build
remote stores (failures of the external constructors are returned); abfs
and abfss are unimplemented errors; file builds a file-system store on
url.Path[1:], a Go string slice that panics when Path is empty; every
other scheme, and every input that does not parse, falls through to a
file-system store on the raw uri string. -/
def createBlockStoreForURI (benv : BlockStoreEnv) (parsed : Option GoURL)
    (uri : String) : CreateBlockStoreOutcome :=
  match parsed with
  | some u =>
    if u.scheme = "gs" then
      match benv.newGCSBlobStore with
      | .error e => .err e
      | .ok _ =>
        match benv.newRemoteBlockStore with
        | .error e => .err e
        | .ok _ => .ok .remoteGCS
    else if u.scheme = "s3" then
      match benv.newS3BlobStore with
      | .error e => .err e
      | .ok _ =>
        match benv.newRemoteBlockStore with
        | .error e => .err e
        | .ok _ => .ok .remoteS3
    else if u.scheme = "abfs" then
      .err "azure Gen1 storage not yet implemented"
    else if u.scheme = "abfss" then
      .err "azure Gen2 storage not yet implemented"
    else if u.scheme = "file" then
      if 1 ≤ u.path.length then .ok (.fsFromURL (u.path.drop 1))
      else .panic
    else .ok (.fsLocal uri)
  | none => .ok (.fsLocal uri)

/-- A block-store oracle whose external constructors all succeed. -/
def wBlockStoreEnv : BlockStoreEnv := ⟨.ok (), .ok (), .ok ()⟩

/-! ## cloneStore scanner phase (main.go lines 2086-2168) -/

/-- A bufio.Scanner after its scan loop: only the Err result matters. -/
structure GoScanner where
  err : Option String
deriving DecidableEq

inductive CloneOutcome where
  | ok
  | err (msg : String)
  | fatalLog (msg : String)
  | nilPanic
deriving DecidableEq

structure CloneScanEnv where
  sourceLines : List GoStr
  targetLines : List GoStr
  zipLines : List GoStr
  sourcesScanErr : Option String
  zipScanErr : Option String
  targetsScanErr : Option String
  processVersion : Nat → Except String Unit

/-- main.go lines 2115-2156: the per-version loop of cloneStore. The
loop stops when any active scanner runs out of lines; an error from
cloneOneVersion returns early, skipping the final checks. -/
def cloneLoop (proc : Nat → Except String Unit) (useZip : Bool) :
    List GoStr → List GoStr → List GoStr → Nat → Except String Unit
  | [], _, _, _ => .ok ()
  | _ :: _, [], _, _ => .ok ()
  | _ :: srcs, _ :: tgts, zips, i =>
    if useZip then
      match zips with
      | [] => .ok ()
      | _ :: zips2 =>
        match proc i with
        | .error e => .error e
        | .ok _ => cloneLoop proc useZip srcs tgts zips2 (i + 1)
    else
      match proc i with
      | .error e => .error e
      | .ok _ => cloneLoop proc useZip srcs tgts zips (i + 1)

/-- main.go lines 2092-2100 and 2115-2166: the scanner part of
cloneStore. The zip scanner is created only when a source-zip-paths file
path is given; after the loop the code checks Err on the sources
scanner, then unconditionally on the zip scanner (a nil pointer
dereference when it was never created), then on the targets scanner. -/
def cloneScanPhase (env : CloneScanEnv) (sourceZipPaths : GoStr) :
    CloneOutcome :=
  let sourcesZipScanner : Option GoScanner :=
    if sourceZipPaths ≠ [] then some ⟨env.zipScanErr⟩ else none
  match cloneLoop env.processVersion (sourceZipPaths ≠ []) env.sourceLines
      env.targetLines env.zipLines 0 with
  | .error e => .err e
  | .ok _ =>
    match env.sourcesScanErr with
    | some e => .fatalLog e
    | none =>
      match sourcesZipScanner with
      | none => .nilPanic
      | some sc =>
        match sc.err with
        | some e => .fatalLog e
        | none =>
          match env.targetsScanErr with
          | some e => .fatalLog e
          | none => .ok

/-- A concrete clone scanner oracle: one version pair, no errors. -/
def wCloneScanEnv : CloneScanEnv :=
  ⟨[['a']], [['b']], [], none, none, none, fun _ => .ok ()⟩

end Golongtail

namespace Golongtail

/-! # Theorems -/

/-! ## Helper lemmas about replacePair, replaceChar and hasPair -/

theorem replacePair_eq_self_of_not_hasPair (x y r : Char) (s : List Char)
    (h : hasPair x y s = false) : replacePair x y r s = s := by
  induction s using replacePair.induct x y r with
  | case1 a b rest hab ih =>
    exact absurd h (by simp [hasPair, hab])
  | case2 a b rest hab ih =>
    rw [replacePair, if_neg hab, ih]
    rwa [hasPair, if_neg hab] at h
  | case3 s hs =>
    match s, hs with
    | [], _ => rfl
    | [a], _ => rfl
    | a :: b :: rest, hs => exact absurd rfl (hs a b rest)

theorem replaceChar_eq_self_of_not_mem (x r : Char) (s : List Char)
    (h : x ∉ s) : replaceChar x r s = s := by
  induction s with
  | nil => rfl
  | cons a rest ih =>
    simp only [List.mem_cons, not_or] at h
    have ha : ¬a = x := fun hax => h.1 hax.symm
    simp only [replaceChar, List.map] at *
    rw [if_neg ha, ih h.2]

theorem not_mem_replaceChar (x r : Char) (s : List Char) (hxr : x ≠ r) :
    x ∉ replaceChar x r s := by
  intro hmem
  simp only [replaceChar, List.mem_map] at hmem
  obtain ⟨a, _, ha⟩ := hmem
  by_cases h : a = x
  · rw [if_pos h] at ha
    exact hxr ha.symm
  · rw [if_neg h] at ha
    exact h ha

theorem hasPair_mem (x y : Char) (s : List Char) (h : hasPair x y s = true) :
    x ∈ s := by
  induction s using replacePair.induct x y x with
  | case1 a b rest hab ih =>
    rw [hab.1]
    exact List.mem_cons_self x _
  | case2 a b rest hab ih =>
    rw [hasPair, if_neg hab] at h
    exact List.mem_cons_of_mem a (ih h)
  | case3 s hs =>
    match s, hs with
    | [], _ => simp [hasPair] at h
    | [a], _ => simp [hasPair] at h
    | a :: b :: rest, hs => exact absurd rfl (hs a b rest)

/-! ## Claim C10 -/

/-- C10 (counterexample): normalizePath is not idempotent. The input of
three forward slashes maps to two forward slashes (the non-overlapping
scan replaces the first pair and leaves the trailing slash), and applying
normalizePath again collapses the remaining pair. -/
theorem normalizePath_not_idempotent :
    normalizePath (normalizePath tripleSlash) ≠ normalizePath tripleSlash := by
  decide

/-- C10 (amended): normalizePath is idempotent on every input whose image
under normalizePath contains no two consecutive forward slashes. The image
never contains a backslash, so only the double-forward-slash pass can act
on a second application. -/
theorem normalizePath_idempotent_of_no_double_slash (p : GoStr)
    (h : hasPair '/' '/' (normalizePath p) = false) :
    normalizePath (normalizePath p) = normalizePath p := by
  have hnb : '\\' ∉ normalizePath p := by
    unfold normalizePath
    exact not_mem_replaceChar '\\' '/' _ (by decide)
  have hpair : hasPair '\\' '\\' (normalizePath p) = false := by
    cases hp : hasPair '\\' '\\' (normalizePath p) with
    | false => rfl
    | true => exact absurd (hasPair_mem _ _ _ hp) hnb
  show replaceChar '\\' '/'
      (replacePair '\\' '\\' '/' (replacePair '/' '/' '/' (normalizePath p))) =
    normalizePath p
  rw [replacePair_eq_self_of_not_hasPair '/' '/' '/' _ h]
  rw [replacePair_eq_self_of_not_hasPair '\\' '\\' '/' _ hpair]
  rw [replaceChar_eq_self_of_not_mem '\\' '/' _ hnb]

/-- C10 amended-claim witness at a concrete input containing a double
slash and a backslash. -/
theorem normalizePath_idempotent_witness :
    hasPair '/' '/' (normalizePath ['a', '/', '/', 'b', '\\', 'c']) = false ∧
    normalizePath (normalizePath ['a', '/', '/', 'b', '\\', 'c']) =
      normalizePath ['a', '/', '/', 'b', '\\', 'c'] :=
  ⟨by decide, normalizePath_idempotent_of_no_double_slash _ (by decide)⟩

/-! ## Helper lemmas about splitOnChar, goHead, goLast and takeWhile -/

theorem splitOnChar_ne_nil (sep : Char) (s : List Char) :
    splitOnChar sep s ≠ [] := by
  cases s with
  | nil => simp [splitOnChar]
  | cons c rest =>
    rw [splitOnChar]
    cases splitOnChar sep rest with
    | nil => simp
    | cons g gs =>
      by_cases hc : c = sep
      · simp [hc]
      · simp [hc]

theorem goHead_splitOnChar (sep : Char) (s : List Char) :
    goHead (splitOnChar sep s) = s.takeWhile (fun c => c ≠ sep) := by
  induction s with
  | nil => rfl
  | cons c rest ih =>
    cases hsplit : splitOnChar sep rest with
    | nil => exact absurd hsplit (splitOnChar_ne_nil sep rest)
    | cons g gs =>
      rw [hsplit] at ih
      simp only [splitOnChar, hsplit, List.takeWhile_cons]
      by_cases hc : c = sep
      · simp [hc, goHead]
      · simp only [goHead] at ih
        simp [hc, goHead, ih]

theorem takeWhile_append_stop (p : Char → Bool) (xs : List Char) (y : Char)
    (ys : List Char) (hy : p y = false) :
    (xs ++ y :: ys).takeWhile p = xs.takeWhile p := by
  induction xs with
  | nil => simp [List.takeWhile_cons, hy]
  | cons a rest ih =>
    simp only [List.cons_append, List.takeWhile_cons]
    cases p a with
    | false => rfl
    | true => simp [ih]

theorem takeWhile_append_all (p : Char → Bool) (xs ys : List Char)
    (hall : ∀ x ∈ xs, p x = true) :
    (xs ++ ys).takeWhile p = xs ++ ys.takeWhile p := by
  induction xs with
  | nil => rfl
  | cons a rest ih =>
    have ha := hall a (List.mem_cons_self a rest)
    simp only [List.cons_append, List.takeWhile_cons, ha, if_true]
    rw [ih (fun x hx => hall x (List.mem_cons_of_mem a hx))]

theorem takeWhile_append_of_exists_not (p : Char → Bool) (xs ys : List Char)
    (hex : ∃ x ∈ xs, p x = false) :
    (xs ++ ys).takeWhile p = xs.takeWhile p := by
  induction xs with
  | nil => simp at hex
  | cons a rest ih =>
    simp only [List.cons_append, List.takeWhile_cons]
    cases ha : p a with
    | false => rfl
    | true =>
      obtain ⟨x, hx, hpx⟩ := hex
      rcases List.mem_cons.mp hx with hxa | hxr
      · rw [hxa] at hpx
        rw [ha] at hpx
        exact absurd hpx (by simp)
      · simp only [if_true]
        rw [ih ⟨x, hxr, hpx⟩]

theorem splitOnChar_singleton (sep : Char) (s : List Char) (g : List Char)
    (h : splitOnChar sep s = [g]) : g = s ∧ sep ∉ s := by
  induction s generalizing g with
  | nil =>
    simp only [splitOnChar] at h
    cases h
    exact ⟨rfl, by simp⟩
  | cons c rest ih =>
    cases hsplit : splitOnChar sep rest with
    | nil => exact absurd hsplit (splitOnChar_ne_nil sep rest)
    | cons g' gs =>
      simp only [splitOnChar, hsplit] at h
      by_cases hc : c = sep
      · rw [if_pos hc] at h
        simp at h
      · rw [if_neg hc] at h
        have hgs : gs = [] := by
          cases gs with
          | nil => rfl
          | cons _ _ => simp at h
        subst hgs
        have hg : g = c :: g' := by
          cases h
          rfl
        obtain ⟨hg', hmem⟩ := ih g' hsplit
        subst hg
        subst hg'
        exact ⟨rfl, by
          intro hmem2
          rcases List.mem_cons.mp hmem2 with h1 | h2
          · exact hc h1.symm
          · exact hmem h2⟩

theorem splitOnChar_mem_of_two (sep : Char) (s : List Char)
    (h : 2 ≤ (splitOnChar sep s).length) : sep ∈ s := by
  induction s with
  | nil => simp [splitOnChar] at h
  | cons c rest ih =>
    cases hsplit : splitOnChar sep rest with
    | nil => exact absurd hsplit (splitOnChar_ne_nil sep rest)
    | cons g gs =>
      simp only [splitOnChar, hsplit] at h
      by_cases hc : c = sep
      · rw [hc]
        exact List.mem_cons_self sep rest
      · rw [if_neg hc] at h
        simp only [List.length_cons] at h
        have : 2 ≤ (splitOnChar sep rest).length := by
          rw [hsplit]
          simp only [List.length_cons]
          omega
        exact List.mem_cons_of_mem c (ih this)

theorem goLast_cons_cons (a b : List Char) (l : List (List Char)) :
    goLast (a :: b :: l) = goLast (b :: l) := rfl

theorem goLast_splitOnChar (sep : Char) (s : List Char) :
    goLast (splitOnChar sep s) =
      (s.reverse.takeWhile (fun c => c ≠ sep)).reverse := by
  induction s with
  | nil => rfl
  | cons c rest ih =>
    cases hsplit : splitOnChar sep rest with
    | nil => exact absurd hsplit (splitOnChar_ne_nil sep rest)
    | cons g gs =>
      simp only [splitOnChar, hsplit]
      by_cases hc : c = sep
      · rw [if_pos hc]
        rw [goLast_cons_cons]
        rw [hsplit] at ih
        rw [ih]
        have : (c :: rest).reverse = rest.reverse ++ c :: [] := by simp
        rw [this]
        rw [takeWhile_append_stop _ _ c [] (by simp [hc])]
      · rw [if_neg hc]
        cases gs with
        | nil =>
          obtain ⟨hg, hmem⟩ := splitOnChar_singleton sep rest g hsplit
          show c :: g = _
          rw [hg]
          have : (c :: rest).reverse = rest.reverse ++ c :: [] := by simp
          rw [this]
          rw [takeWhile_append_all]
          · simp [hc]
          · intro x hx
            have : x ∈ rest := List.mem_reverse.mp hx
            simp only [ne_eq, decide_eq_true_eq]
            intro hxs
            exact hmem (hxs ▸ this)
        | cons g2 gs2 =>
          rw [goLast_cons_cons]
          have hlen : 2 ≤ (splitOnChar sep rest).length := by
            rw [hsplit]
            simp only [List.length_cons]
            omega
          have hmem : sep ∈ rest := splitOnChar_mem_of_two sep rest hlen
          have hstep : goLast (g2 :: gs2) = goLast (g :: g2 :: gs2) := rfl
          rw [hstep]
          rw [← hsplit]
          rw [ih]
          have : (c :: rest).reverse = rest.reverse ++ c :: [] := by simp
          rw [this]
          rw [takeWhile_append_of_exists_not]
          exact ⟨sep, List.mem_reverse.mpr hmem, by simp⟩

/-! ## Claim C9 -/

/-- C9: when the target folder path argument is empty, downsync resolves
the target folder to the last slash-separated segment of the normalized
source version-index path truncated at its first dot, and resolution
fails with an error exactly when that name is empty. -/
theorem downsync_resolves_target_from_source_name (src tfp : GoStr)
    (h : tfp = []) :
    resolveTargetFolderPath src tfp =
      (if truncAtFirstDot (lastSlashSegment (normalizePath src)) = [] then
        .error "downSyncVersion: unable to resolve target path"
      else .ok (truncAtFirstDot (lastSlashSegment (normalizePath src)))) := by
  subst h
  simp only [resolveTargetFolderPath, if_pos, goLast_splitOnChar,
    goHead_splitOnChar, lastSlashSegment, truncAtFirstDot]

/-- C9 witness: the example from the claim, a source index path
store/v1.lvi with an empty target folder path resolves to v1. -/
theorem downsync_resolves_target_witness :
    resolveTargetFolderPath ("store/v1.lvi".toList) [] =
      .ok ("v1".toList) := by
  rw [downsync_resolves_target_from_source_name ("store/v1.lvi".toList) [] rfl]
  decide

/-! ## Claim C1 -/

/-- The code after the target index read issues no further target index
construction: its trace never contains a targetIndexRead event. -/
theorem targetIndexRead_not_in_afterRead (env : DownsyncEnv)
    (r ti lc : GoStr) (rp v : Bool) (svi : VersionIndex)
    (a b : GoStr) (c d e : Nat) :
    DownsyncEvent.targetIndexRead a b c d e ∉
      (downSyncAfterTargetRead env r ti lc rp v svi).2 := by
  unfold downSyncAfterTargetRead
  repeat' split
  all_goals simp

/-- C1: every target index construction issued by downSyncVersion is
passed exactly the hash identifier and the target chunk size of the
source version index that was read. -/
theorem downsync_target_index_uses_source_params (env : DownsyncEnv)
    (b s t i l : GoStr) (rp v : Bool)
    (root ip : GoStr) (tcs ct hid : Nat)
    (hmem : DownsyncEvent.targetIndexRead root ip tcs ct hid ∈
      (downSyncVersion env b s t i l rp v).2) :
    ∃ vb svi, env.readFromURI s = .ok vb ∧
      env.readVersionIndexFromBuffer vb = .ok svi ∧
      hid = svi.hashIdentifier ∧ tcs = svi.targetChunkSize := by
  rcases h1 : env.makeRegexPathFilter with e1 | u1
  · simp [downSyncVersion, h1] at hmem
  rcases h2 : resolveTargetFolderPath s t with e2 | rtp
  · simp [downSyncVersion, h1, h2] at hmem
  rcases h3 : env.readFromURI s with e3 | vb
  · simp only [downSyncVersion, h1, h2, h3] at hmem
    split at hmem <;> simp at hmem
  rcases h4 : env.readVersionIndexFromBuffer vb with e4 | svi
  · simp only [downSyncVersion, h1, h2, h3, h4] at hmem
    split at hmem <;> simp at hmem
  rcases hafter : downSyncAfterTargetRead env rtp i l rp v svi with ⟨res, evs⟩
  simp only [downSyncVersion, h1, h2, h3, h4, hafter, List.append_assoc,
    List.mem_append, List.mem_cons, List.not_mem_nil, or_false] at hmem
  have hnotafter := targetIndexRead_not_in_afterRead env rtp i l rp v svi
    root ip tcs ct hid
  rw [hafter] at hnotafter
  rcases hmem with hscan | (hread | hhit) | hin
  · exact absurd hscan (by split <;> simp)
  · exact absurd hread (by simp)
  · injection hhit with hr hi2 htcs hct2 hhid
    exact ⟨vb, svi, rfl, h4, hhid, htcs⟩
  · exact absurd hin hnotafter

/-- C1 witness: a concrete downsync invocation in which the target index
read event occurs and carries the source hash identifier 7 and the
source target chunk size 32768. -/
theorem downsync_target_index_witness :
    DownsyncEvent.targetIndexRead ['v'] [] 32768 0 7 ∈
      (downSyncVersion wDownsyncEnv [] ['s'] ['v'] [] [] true false).2 ∧
    ∃ vb svi, wDownsyncEnv.readFromURI ['s'] = .ok vb ∧
      wDownsyncEnv.readVersionIndexFromBuffer vb = .ok svi ∧
      7 = svi.hashIdentifier ∧ 32768 = svi.targetChunkSize :=
  ⟨by decide,
   downsync_target_index_uses_source_params wDownsyncEnv [] ['s'] ['v'] []
     [] true false ['v'] [] 32768 0 7 (by decide)⟩

/-! ## Claim C2 -/

theorem checkValidateAsset_ok_iff (rp : Bool) (src v : VersionIndex)
    (i : Nat) :
    checkValidateAsset rp src v i = .ok () ↔
      ((goMapGet (sourceSizeEntries src) (v.getAssetPath i)).isSome = true ∧
       (goMapGet (sourceSizeEntries src) (v.getAssetPath i)).getD 0 =
         v.assetSizes.getD i 0 ∧
       (goMapGet (sourceHashEntries src) (v.getAssetPath i)).getD 0 =
         v.assetHashes.getD i 0 ∧
       (rp = true →
         (goMapGet (sourcePermEntries src) (v.getAssetPath i)).getD 0 =
           v.getAssetPermissions i)) := by
  unfold checkValidateAsset
  cases hm : goMapGet (sourceSizeEntries src) (v.getAssetPath i) with
  | none => simp [hm]
  | some size =>
    simp only [hm, Option.isSome_some, Option.getD_some, true_and,
      List.getD_eq_getElem?_getD]
    by_cases hsz : size = v.assetSizes[i]?.getD 0
    · by_cases hh : (goMapGet (sourceHashEntries src) (v.getAssetPath i)).getD 0
          = v.assetHashes[i]?.getD 0
      · cases rp with
        | false => simp [hsz, hh]
        | true =>
          by_cases hp : (goMapGet (sourcePermEntries src)
              (v.getAssetPath i)).getD 0 = v.getAssetPermissions i
          · simp [hsz, hh, hp]
          · simp [hsz, hh, hp]
      · simp [hsz, hh]
    · simp [hsz]

theorem validateAssetsLoop_ok_iff (rp : Bool) (src v : VersionIndex)
    (l : List Nat) :
    validateAssetsLoop rp src v l = .ok () ↔
      ∀ i ∈ l, checkValidateAsset rp src v i = .ok () := by
  induction l with
  | nil => simp [validateAssetsLoop]
  | cons a rest ih =>
    cases hc : checkValidateAsset rp src v a with
    | error e => simp [validateAssetsLoop, hc]
    | ok u =>
      cases u
      simp [validateAssetsLoop, hc, ih]

theorem downsyncValidate_ok_iff (rp : Bool) (src v : VersionIndex) :
    downsyncValidate rp src v = .ok () ↔ validateSpecHolds rp src v := by
  unfold downsyncValidate validateSpecHolds
  by_cases hc : v.getAssetCount = src.getAssetCount
  · rw [if_neg (by simp [hc])]
    rw [validateAssetsLoop_ok_iff]
    simp [checkValidateAsset_ok_iff, List.mem_range, hc]
  · rw [if_pos hc]
    simp [hc]

/-- C2: a downsync invocation with the validate flag set that reaches
the validation phase succeeds exactly when the re-indexed target matches
the source version index: equal asset counts, every re-indexed path
present among the source paths, every size and content hash equal to the
source entry for that path, and permissions checked only when
retain-permissions is enabled. -/
theorem downsync_validate_phase_iff (env : DownsyncEnv)
    (b s t i l : GoStr) (rp validate : Bool)
    (rtp : GoStr) (vb : Nat) (svi tvi : VersionIndex)
    (chs : List Nat) (si : StoreIndex) (vvi : VersionIndex)
    (hv : validate = true)
    (h1 : env.makeRegexPathFilter = .ok ())
    (h2 : resolveTargetFolderPath s t = .ok rtp)
    (h3 : env.readFromURI s = .ok vb)
    (h4 : env.readVersionIndexFromBuffer vb = .ok svi)
    (h5 : env.createBlockStore = .ok ())
    (h6 : env.getHashAPI svi.hashIdentifier = .ok ())
    (h7 : env.targetIndexRead rtp i svi.targetChunkSize noCompressionType
      svi.hashIdentifier = .ok tvi)
    (h8 : env.createVersionDiff tvi svi = .ok ())
    (h9 : env.getRequiredChunkHashes svi = .ok chs)
    (h10 : env.getExistingStoreIndex chs 0 = .ok si)
    (h11 : env.changeVersion = .ok ())
    (h12 : env.flushStores = .ok ())
    (h13 : env.getFilesRecursively (normalizePath rtp) = .ok ())
    (h14 : env.createVersionIndex (normalizePath rtp) svi.targetChunkSize =
      .ok vvi) :
    (downSyncVersion env b s t i l rp validate).1 = .ok () ↔
      validateSpecHolds rp svi vvi := by
  subst hv
  simp only [downSyncVersion, downSyncAfterTargetRead, h1, h2, h3, h4, h5,
    h6, h7, h8, h9, h10, h11, h12, h13, h14, if_true]
  exact downsyncValidate_ok_iff rp svi vvi

/-- C2 witness: a concrete downsync invocation with validate set where
every external step succeeds, instantiating the equivalence. -/
theorem downsync_validate_phase_witness :
    ((downSyncVersion wDownsyncEnv [] ['s'] ['v'] [] [] true true).1 =
      .ok ()) ↔ validateSpecHolds true wVersionIndex wVersionIndex :=
  downsync_validate_phase_iff wDownsyncEnv [] ['s'] ['v'] [] [] true true
    ['v'] 0 wVersionIndex wVersionIndex [5] ⟨[9], [5]⟩ wVersionIndex rfl rfl
    rfl rfl rfl rfl rfl rfl rfl rfl rfl rfl rfl rfl rfl

/-! ## Claim C3 -/

/-- The trace of the per-version store index file attempt contains only
readURI events for the file path. -/
theorem readFileStoreIndex_events (env : PruneEnv) (w : Bool)
    (vlsi : GoStr) (vi : VersionIndex) (ev : PruneEvent)
    (h : ev ∈ (readFileStoreIndex env w vlsi vi).2) :
    ev = .readURI vlsi := by
  unfold readFileStoreIndex at h
  repeat' split at h
  all_goals simp_all

/-- The trace of the write-back step contains only the write event for
the per-version index path, and only outside dry-run. -/
theorem pruneAfterStoreIndex_events (env : PruneEnv) (w d : Bool)
    (vlsi : GoStr) (si : StoreIndex) (ev : PruneEvent)
    (h : ev ∈ (pruneAfterStoreIndex env w d vlsi si).2) :
    ev = .writeVersionLocalStoreIndex vlsi ∧ d = false := by
  unfold pruneAfterStoreIndex at h
  repeat' split at h
  all_goals simp_all

/-- Every event of one version of the prune scan is a read, a remote
store index query, a dry-run warning, or (outside dry-run) the
per-version index write. -/
theorem pruneProcessVersion_events (env : PruneEnv) (w d : Bool)
    (u src vlsi : GoStr) (ev : PruneEvent)
    (h : ev ∈ (pruneProcessVersion env w d u src vlsi).2) :
    ev = .readURI src ∨ ev = .readURI vlsi ∨
    (∃ chs, ev = .getExistingContent chs) ∨ ev = .warnMissingData src ∨
    (ev = .writeVersionLocalStoreIndex vlsi ∧ d = false) := by
  rcases h1 : env.readFromURI src with e1 | vb
  · simp only [pruneProcessVersion, h1, List.mem_cons, List.not_mem_nil,
      or_false] at h
    exact Or.inl h
  rcases h2 : env.readVersionIndexFromBuffer vb with e2 | vi
  · simp only [pruneProcessVersion, h1, h2, List.mem_cons,
      List.not_mem_nil, or_false] at h
    exact Or.inl h
  rcases hrf : readFileStoreIndex env w vlsi vi with ⟨o, fevs⟩
  have hfev : ∀ e, e ∈ fevs → e = PruneEvent.readURI vlsi := by
    intro e he
    exact readFileStoreIndex_events env w vlsi vi e (by rw [hrf]; exact he)
  cases o with
  | earlySkip =>
    simp only [pruneProcessVersion, h1, h2, hrf, List.mem_cons] at h
    rcases h with h | h
    · exact Or.inl h
    · exact Or.inr (Or.inl (hfev ev h))
  | valid si =>
    rcases hps : pruneAfterStoreIndex env w d vlsi si with ⟨r2, aevs⟩
    simp only [pruneProcessVersion, h1, h2, hrf, hps, List.mem_append,
      List.mem_cons] at h
    rcases h with (h | h) | h
    · exact Or.inl h
    · exact Or.inr (Or.inl (hfev ev h))
    · have := pruneAfterStoreIndex_events env w d vlsi si ev
        (by rw [hps]; exact h)
      exact Or.inr (Or.inr (Or.inr (Or.inr this)))
  | invalid errVar =>
    rcases h3 : env.getExistingStoreIndex vi.chunkHashes with e3 | si
    · simp only [pruneProcessVersion, h1, h2, hrf, h3, List.mem_append,
        List.mem_cons, List.not_mem_nil, or_false] at h
      rcases h with (h | h) | h
      · exact Or.inl h
      · exact Or.inr (Or.inl (hfev ev h))
      · exact Or.inr (Or.inr (Or.inl ⟨vi.chunkHashes, h⟩))
    by_cases hval : env.validateStore si vi = true
    · rcases hps : pruneAfterStoreIndex env w d vlsi si with ⟨r2, aevs⟩
      simp only [pruneProcessVersion, h1, h2, hrf, h3, hval, if_true,
        hps, List.mem_append, List.mem_cons, List.not_mem_nil,
        or_false] at h
      rcases h with ((h | h) | h) | h
      · exact Or.inl h
      · exact Or.inr (Or.inl (hfev ev h))
      · exact Or.inr (Or.inr (Or.inl ⟨vi.chunkHashes, h⟩))
      · have := pruneAfterStoreIndex_events env w d vlsi si ev
          (by rw [hps]; exact h)
        exact Or.inr (Or.inr (Or.inr (Or.inr this)))
    · by_cases hd : d = true
      · simp only [pruneProcessVersion, h1, h2, hrf, h3, hval, hd,
          Bool.false_eq_true, if_false, if_true, List.mem_append,
          List.mem_cons, List.not_mem_nil, or_false] at h
        rcases h with (h | h) | h | h
        · exact Or.inl h
        · exact Or.inr (Or.inl (hfev ev h))
        · exact Or.inr (Or.inr (Or.inl ⟨vi.chunkHashes, h⟩))
        · exact Or.inr (Or.inr (Or.inr (Or.inl h)))
      · simp only [pruneProcessVersion, h1, h2, hrf, h3, hval, hd,
          Bool.false_eq_true, if_false, List.mem_append, List.mem_cons,
          List.not_mem_nil, or_false] at h
        rcases h with (h | h) | h
        · exact Or.inl h
        · exact Or.inr (Or.inl (hfev ev h))
        · exact Or.inr (Or.inr (Or.inl ⟨vi.chunkHashes, h⟩))

/-- Frame facts about one version of the prune scan: it never opens a
store, never calls PruneBlocks, and in dry-run never writes a
version-local store index file. -/
theorem pruneProcessVersion_frame (env : PruneEnv) (w d : Bool)
    (u src vlsi : GoStr) :
    (∀ bo, PruneEvent.openStore bo ∉
      (pruneProcessVersion env w d u src vlsi).2) ∧
    (∀ keep, PruneEvent.pruneBlocks keep ∉
      (pruneProcessVersion env w d u src vlsi).2) ∧
    (∀ p, d = true → PruneEvent.writeVersionLocalStoreIndex p ∉
      (pruneProcessVersion env w d u src vlsi).2) := by
  refine ⟨fun bo hmem => ?_, fun keep hmem => ?_, fun p hd hmem => ?_⟩
  · rcases pruneProcessVersion_events env w d u src vlsi _ hmem with
      h | h | ⟨chs, h⟩ | h | ⟨h, _⟩ <;> simp at h
  · rcases pruneProcessVersion_events env w d u src vlsi _ hmem with
      h | h | ⟨chs, h⟩ | h | ⟨h, _⟩ <;> simp at h
  · rcases pruneProcessVersion_events env w d u src vlsi _ hmem with
      h | h | ⟨chs, h⟩ | h | ⟨h, hd2⟩
    · simp at h
    · simp at h
    · simp at h
    · simp at h
    · rw [hd] at hd2
      exact absurd hd2 (by simp)

/-- The frame facts lifted over the whole scan loop. -/
theorem pruneScanVersions_frame (env : PruneEnv) (w d : Bool) (u : GoStr)
    (pairs : List (GoStr × GoStr)) (used : List Nat) :
    (∀ bo, PruneEvent.openStore bo ∉
      (pruneScanVersions env w d u pairs used).2) ∧
    (∀ keep, PruneEvent.pruneBlocks keep ∉
      (pruneScanVersions env w d u pairs used).2) ∧
    (∀ p, d = true → PruneEvent.writeVersionLocalStoreIndex p ∉
      (pruneScanVersions env w d u pairs used).2) := by
  induction pairs generalizing used with
  | nil => simp [pruneScanVersions]
  | cons pr rest ih =>
    obtain ⟨src, vlsi⟩ := pr
    obtain ⟨ho, hk, hw⟩ := pruneProcessVersion_frame env w d u src vlsi
    rcases hp : pruneProcessVersion env w d u src vlsi with ⟨r, evs⟩
    rw [hp] at ho hk hw
    cases r with
    | error e =>
      simp only [pruneScanVersions, hp]
      exact ⟨fun bo => ho bo, fun keep => hk keep, fun p hd => hw p hd⟩
    | ok hs =>
      obtain ⟨iho, ihk, ihw⟩ := ih (insertUsedBlocks used hs)
      simp only [pruneScanVersions, hp, List.mem_append]
      refine ⟨fun bo hmem => ?_, fun keep hmem => ?_, fun p hd hmem => ?_⟩
      · rcases hmem with h | h
        · exact ho bo h
        · exact iho bo h
      · rcases hmem with h | h
        · exact hk keep h
        · exact ihk keep h
      · rcases hmem with h | h
        · exact hw p hd h
        · exact ihw p hd h

/-- C3: a dry-run prune opens the remote store read-only and never
read-write, issues no PruneBlocks call, writes no version-local store
index file, and when it succeeds it reports the number of distinct
blocks collected by the scan. -/
theorem prune_dry_run_frame (env : PruneEnv) (u : GoStr)
    (srcs : List GoStr) (vlsis : Option (List GoStr)) (w : Bool) :
    PruneEvent.openStore true ∈ (pruneStore env u srcs vlsis w true).2 ∧
    PruneEvent.openStore false ∉ (pruneStore env u srcs vlsis w true).2 ∧
    (∀ keep, PruneEvent.pruneBlocks keep ∉
      (pruneStore env u srcs vlsis w true).2) ∧
    (∀ p, PruneEvent.writeVersionLocalStoreIndex p ∉
      (pruneStore env u srcs vlsis w true).2) ∧
    ((pruneStore env u srcs vlsis w true).1 = .ok () →
      ∃ used, (pruneScanVersions env w true u (prunePairs srcs vlsis) []).1 =
          .ok used ∧
        PruneEvent.printWouldKeep used.length ∈
          (pruneStore env u srcs vlsis w true).2) := by
  obtain ⟨ho, hk, hw⟩ :=
    pruneScanVersions_frame env w true u (prunePairs srcs vlsis) []
  by_cases hlen : pruneLengthOk srcs vlsis = true
  · rcases hscan : pruneScanVersions env w true u (prunePairs srcs vlsis) []
      with ⟨scanRes, scanEvs⟩
    rw [hscan] at ho hk hw
    cases scanRes with
    | error e =>
      simp only [pruneStore, hlen, if_true, hscan, List.mem_append,
        List.mem_cons, List.not_mem_nil, or_false]
      refine ⟨Or.inl trivial, ?_, ?_, ?_, ?_⟩
      · intro hmem
        rcases hmem with h | h
        · simp at h
        · exact ho false h
      · intro keep hmem
        rcases hmem with h | h
        · simp at h
        · exact hk keep h
      · intro p hmem
        rcases hmem with h | h
        · simp at h
        · exact hw p rfl h
      · intro hok
        simp at hok
    | ok used =>
      simp only [pruneStore, hlen, if_true, hscan, List.mem_append,
        List.mem_cons, List.not_mem_nil, or_false]
      refine ⟨Or.inl (Or.inl trivial), ?_, ?_, ?_, ?_⟩
      · intro hmem
        rcases hmem with (h | h) | h
        · simp at h
        · exact ho false h
        · simp at h
      · intro keep hmem
        rcases hmem with (h | h) | h
        · simp at h
        · exact hk keep h
        · simp at h
      · intro p hmem
        rcases hmem with (h | h) | h
        · simp at h
        · exact hw p rfl h
        · simp at h
      · intro _
        exact ⟨used, rfl, Or.inr rfl⟩
  · simp only [Bool.not_eq_true] at hlen
    simp only [pruneStore, hlen, Bool.false_eq_true, if_false,
      List.mem_cons, List.not_mem_nil, or_false]
    refine ⟨trivial, by simp, by simp, by simp, ?_⟩
    intro hok
    simp at hok

/-- C3 witness: a concrete dry-run prune over one version, instantiating
the frame theorem. -/
theorem prune_dry_run_frame_witness :
    PruneEvent.openStore true ∈
      (pruneStore cPruneEnv ['u'] [['s']] (some [['f']]) false true).2 ∧
    PruneEvent.openStore false ∉
      (pruneStore cPruneEnv ['u'] [['s']] (some [['f']]) false true).2 ∧
    (∀ keep, PruneEvent.pruneBlocks keep ∉
      (pruneStore cPruneEnv ['u'] [['s']] (some [['f']]) false true).2) ∧
    (∀ p, PruneEvent.writeVersionLocalStoreIndex p ∉
      (pruneStore cPruneEnv ['u'] [['s']] (some [['f']]) false true).2) ∧
    ((pruneStore cPruneEnv ['u'] [['s']] (some [['f']]) false true).1 =
        .ok () →
      ∃ used, (pruneScanVersions cPruneEnv false true ['u']
          (prunePairs [['s']] (some [['f']])) []).1 = .ok used ∧
        PruneEvent.printWouldKeep used.length ∈
          (pruneStore cPruneEnv ['u'] [['s']] (some [['f']]) false true).2) :=
  prune_dry_run_frame cPruneEnv ['u'] [['s']] (some [['f']]) false

/-! ## Claim C4 -/

/-- C4 (counterexample): with write-version-local-store-index set, a
per-version store index file that is given, readable and valid is still
ignored: the block set comes from the remote store query (block 2, not
the block 1 recorded in the file). -/
theorem prune_version_block_set_counterexample :
    cPruneEnv.readFromURI ['f'] = .ok 2 ∧
    cPruneEnv.readStoreIndexFromBuffer 2 = .ok cFileStoreIndex ∧
    cPruneEnv.validateStore cFileStoreIndex wVersionIndex = true ∧
    (pruneProcessVersion cPruneEnv true false ['u'] ['s'] ['f']).1 =
      .ok cRemoteStoreIndex.blockHashes ∧
    cRemoteStoreIndex.blockHashes ≠ cFileStoreIndex.blockHashes ∧
    PruneEvent.getExistingContent wVersionIndex.chunkHashes ∈
      (pruneProcessVersion cPruneEnv true false ['u'] ['s'] ['f']).2 := by
  decide

/-- When the per-version index file cannot be used, the file attempt
yields an invalid outcome. -/
theorem readFileStoreIndex_unavailable (env : PruneEnv) (w : Bool)
    (vlsi : GoStr) (vi : VersionIndex)
    (h : fileIndexUnavailable env w vlsi vi) :
    ∃ errVar fevs,
      readFileStoreIndex env w vlsi vi = (.invalid errVar, fevs) := by
  by_cases hcond : vlsi ≠ [] ∧ w = false
  · rcases hr : env.readFromURI vlsi with e | sb
    · exact ⟨some e, [.readURI vlsi],
        by simp [readFileStoreIndex, hcond.1, hcond.2, hr]⟩
    · rcases hp : env.readStoreIndexFromBuffer sb with e2 | si
      · rcases h with h | h | ⟨e3, he⟩ | ⟨sb2, si2, hr2, hp2, hv2⟩
        · exact absurd h hcond.1
        · rw [h] at hcond
          simp at hcond
        · rw [hr] at he
          simp at he
        · rw [hr] at hr2
          injection hr2 with hsb
          subst hsb
          rw [hp] at hp2
          simp at hp2
      · by_cases hv : env.validateStore si vi = true
        · rcases h with h | h | ⟨e3, he⟩ | ⟨sb2, si2, hr2, hp2, hv2⟩
          · exact absurd h hcond.1
          · rw [h] at hcond
            simp at hcond
          · rw [hr] at he
            simp at he
          · rw [hr] at hr2
            injection hr2 with hsb
            subst hsb
            rw [hp] at hp2
            injection hp2 with hsi
            subst hsi
            rw [hv] at hv2
            simp at hv2
        · exact ⟨none, [.readURI vlsi],
            by simp [readFileStoreIndex, hcond.1, hcond.2, hr, hp, hv]⟩
  · exact ⟨none, [], by simp [readFileStoreIndex, hcond]⟩

/-- C4 (amended): the block set of a version whose version index loads
is taken from the per-version store index file exactly when the file
path is given, write-version-local-store-index is not set, the file
reads and parses, and it validates against the version index; the remote
store index is queried for the version chunk hashes when the file path
is not given, the write option is set, the file is unreadable, or it
fails validation; a version whose content is missing from the store
surfaces an error, and in dry-run only a warning; a readable file that
fails to parse silently skips the version; and when the write-back of
the per-version index is requested but serializing the index fails, the
version still contributes the queried block set without an error (the
block hashes are recorded at line 2314, before the write-back guard). -/
theorem prune_version_block_set_amended (env : PruneEnv)
    (w d : Bool) (u src vlsi : GoStr) (vb : Nat) (vi : VersionIndex)
    (hread : env.readFromURI src = .ok vb)
    (hvi : env.readVersionIndexFromBuffer vb = .ok vi) :
    (∀ sb si, vlsi ≠ [] → w = false →
      env.readFromURI vlsi = .ok sb →
      env.readStoreIndexFromBuffer sb = .ok si →
      env.validateStore si vi = true →
      (pruneProcessVersion env w d u src vlsi).1 = .ok si.blockHashes ∧
      ∀ chs, PruneEvent.getExistingContent chs ∉
        (pruneProcessVersion env w d u src vlsi).2) ∧
    (fileIndexUnavailable env w vlsi vi →
      PruneEvent.getExistingContent vi.chunkHashes ∈
        (pruneProcessVersion env w d u src vlsi).2) ∧
    (∀ si, fileIndexUnavailable env w vlsi vi →
      env.getExistingStoreIndex vi.chunkHashes = .ok si →
      env.validateStore si vi = false →
      (d = true → (pruneProcessVersion env w d u src vlsi).1 = .ok [] ∧
        PruneEvent.warnMissingData src ∈
          (pruneProcessVersion env w d u src vlsi).2) ∧
      (d = false → ∃ msg,
        (pruneProcessVersion env w d u src vlsi).1 = .error msg)) ∧
    (∀ sb e, vlsi ≠ [] → w = false →
      env.readFromURI vlsi = .ok sb →
      env.readStoreIndexFromBuffer sb = .error e →
      (pruneProcessVersion env w d u src vlsi).1 = .ok [] ∧
      ∀ chs, PruneEvent.getExistingContent chs ∉
        (pruneProcessVersion env w d u src vlsi).2) ∧
    (∀ si e2, fileIndexUnavailable env w vlsi vi →
      env.getExistingStoreIndex vi.chunkHashes = .ok si →
      env.validateStore si vi = true →
      vlsi ≠ [] → w = true → d = false →
      env.writeStoreIndexToBuffer si = .error e2 →
      (pruneProcessVersion env w d u src vlsi).1 = .ok si.blockHashes) := by
  refine ⟨?_, ?_, ?_, ?_, ?_⟩
  · intro sb si hne hw hr hp hv
    subst hw
    have hrf : readFileStoreIndex env false vlsi vi =
        (.valid si, [.readURI vlsi]) := by
      simp [readFileStoreIndex, hne, hr, hp, hv]
    constructor
    · simp [pruneProcessVersion, hread, hvi, hrf, pruneAfterStoreIndex]
    · intro chs
      simp [pruneProcessVersion, hread, hvi, hrf, pruneAfterStoreIndex]
  · intro hun
    obtain ⟨errVar, fevs, hrf⟩ :=
      readFileStoreIndex_unavailable env w vlsi vi hun
    rcases h3 : env.getExistingStoreIndex vi.chunkHashes with e3 | si
    · simp [pruneProcessVersion, hread, hvi, hrf, h3]
    · by_cases hv : env.validateStore si vi = true
      · rcases hps : pruneAfterStoreIndex env w d vlsi si with ⟨r2, aevs⟩
        simp [pruneProcessVersion, hread, hvi, hrf, h3, hv, hps]
      · by_cases hd : d = true
        · simp [pruneProcessVersion, hread, hvi, hrf, h3, hv, hd]
        · simp [pruneProcessVersion, hread, hvi, hrf, h3, hv, hd]
  · intro si hun h3 hv
    obtain ⟨errVar, fevs, hrf⟩ :=
      readFileStoreIndex_unavailable env w vlsi vi hun
    constructor
    · intro hd
      constructor
      · simp [pruneProcessVersion, hread, hvi, hrf, h3, hv, hd]
      · simp [pruneProcessVersion, hread, hvi, hrf, h3, hv, hd]
    · intro hd
      refine ⟨"Data is missing in store", ?_⟩
      simp [pruneProcessVersion, hread, hvi, hrf, h3, hv, hd]
  · intro sb e hne hw hr hp
    subst hw
    have hrf : readFileStoreIndex env false vlsi vi =
        (.earlySkip, [.readURI vlsi]) := by
      simp [readFileStoreIndex, hne, hr, hp]
    constructor
    · simp [pruneProcessVersion, hread, hvi, hrf]
    · intro chs
      simp [pruneProcessVersion, hread, hvi, hrf]
  · intro si e2 hun h3 hval hne hw hd hwrite
    subst hw
    subst hd
    obtain ⟨errVar, fevs, hrf⟩ :=
      readFileStoreIndex_unavailable env true vlsi vi hun
    have hps : pruneAfterStoreIndex env true false vlsi si =
        (.ok si.blockHashes, []) := by
      simp [pruneAfterStoreIndex, hne, hwrite]
    simp [pruneProcessVersion, hread, hvi, hrf, h3, hval, hps]

/-- C4 amended-claim witness: with the write option set the concrete
prune oracle queries the remote store even though a valid per-version
index file is given. -/
theorem prune_version_block_set_amended_witness :
    PruneEvent.getExistingContent wVersionIndex.chunkHashes ∈
      (pruneProcessVersion cPruneEnv true false ['u'] ['s'] ['f']).2 :=
  (prune_version_block_set_amended cPruneEnv true false ['u'] ['s'] ['f']
    1 wVersionIndex rfl rfl).2.1 (Or.inr (Or.inl rfl))

/-! ## Claim C6 -/

/-- C6 (counterexample): a version with one asset whose single chunk
lives in the all-ones block. The claim formula (one fragment, one asset)
reports 0, but the sentinel initialization of lastBlockIndex misses the
leading run, so the code computes 0 fragments and reports the wrapped
value 4294967196. -/
theorem stats_fragmentation_counterexample :
    statsAssetFragmentation fragVersionIndex fragBlockLookup = 4294967196 ∧
    claimAssetFragmentation fragVersionIndex fragBlockLookup = 0 ∧
    statsAssetFragmentation fragVersionIndex fragBlockLookup ≠
      claimAssetFragmentation fragVersionIndex fragBlockLookup := by
  decide

theorem goCountFrags_eq_countRunsFrom (l : List Nat) :
    ∀ last, goCountFrags last l = countRunsFrom last l := by
  induction l with
  | nil => intro last; rfl
  | cons b rest ih =>
    intro last
    by_cases hb : b = last
    · simp [goCountFrags, countRunsFrom, hb, ih]
    · simp [goCountFrags, countRunsFrom, hb, ih]

/-- The sentinel-initialized fragment count of one asset equals its run
count minus one when the leading run sits in the all-ones block. -/
theorem goCountFrags_sentinel (l : List Nat) :
    goCountFrags U64MAX l =
      countRuns l - (if l.head? = some U64MAX then 1 else 0) := by
  cases l with
  | nil => rfl
  | cons b rest =>
    by_cases hb : b = U64MAX
    · subst hb
      rw [show goCountFrags U64MAX (U64MAX :: rest) =
          goCountFrags U64MAX rest from by simp [goCountFrags]]
      rw [goCountFrags_eq_countRunsFrom]
      simp only [countRuns, List.head?, if_true]
      omega
    · simp only [goCountFrags, countRuns, List.head?, ne_eq, hb,
        not_false_eq_true, if_true]
      rw [goCountFrags_eq_countRunsFrom]
      have hne : ¬(some b = some U64MAX) := by
        intro hc
        injection hc with hc
        exact hb hc
      rw [if_neg hne]
      omega

theorem foldl_add_congr (f g : Nat → Nat) (l : List Nat)
    (h : ∀ a ∈ l, f a = g a) :
    ∀ init : Nat, l.foldl (fun acc a => acc + f a) init =
      l.foldl (fun acc a => acc + g a) init := by
  induction l with
  | nil => intro _; rfl
  | cons a rest ih =>
    intro init
    simp only [List.foldl_cons]
    rw [h a (List.mem_cons_self a rest)]
    exact ih (fun x hx => h x (List.mem_cons_of_mem a hx)) _

theorem statsAssetFragmentCount_eq_amended (vi : VersionIndex)
    (bl : Nat → Nat) :
    statsAssetFragmentCount vi bl = amendedFragments vi bl := by
  unfold statsAssetFragmentCount amendedFragments
  exact foldl_add_congr _ _ _ (fun a _ => goCountFrags_sentinel _) 0

/-- C6 (amended): the reported Asset Fragmentation is the claim formula
computed over the sentinel-adjusted fragment count, in which an asset
whose leading run lives in the all-ones block loses that run; and
whenever the adjusted fragment count is below the asset count (with a
realistic uint32 asset count) the reported value is the claim quotient
minus 100 wrapped modulo 2 to the 32. -/
theorem stats_fragmentation_amended (vi : VersionIndex) (bl : Nat → Nat) :
    statsAssetFragmentation vi bl =
      (if 0 < vi.getAssetCount then
        (((100 * amendedFragments vi bl) % U64MOD) / vi.getAssetCount +
          (U64MOD - 100)) % U64MOD % U32MOD
      else 0) ∧
    (0 < vi.getAssetCount → vi.getAssetCount ≤ U32MOD →
      amendedFragments vi bl < vi.getAssetCount →
      statsAssetFragmentation vi bl =
        ((100 * amendedFragments vi bl) / vi.getAssetCount +
          (U32MOD - 100)) % U32MOD) := by
  have heq := statsAssetFragmentCount_eq_amended vi bl
  constructor
  · unfold statsAssetFragmentation
    rw [heq]
  · intro hpos hle hlt
    unfold statsAssetFragmentation
    rw [heq, if_pos hpos]
    have h1 : 100 * amendedFragments vi bl < U64MOD := by
      unfold U64MOD
      unfold U32MOD at hle
      omega
    rw [Nat.mod_eq_of_lt h1]
    have h2 : (100 * amendedFragments vi bl) / vi.getAssetCount < 100 := by
      rw [Nat.div_lt_iff_lt_mul hpos]
      omega
    generalize hq : (100 * amendedFragments vi bl) / vi.getAssetCount = q
    rw [hq] at h2
    unfold U64MOD U32MOD
    omega

/-- C6 amended-claim witness: two assets, both of whose single chunks
live in the all-ones block; the adjusted fragment count 0 is below the
asset count 2 and the report wraps modulo 2 to the 32. -/
theorem stats_fragmentation_amended_witness :
    statsAssetFragmentation frag2VersionIndex fragBlockLookup =
      ((100 * amendedFragments frag2VersionIndex fragBlockLookup) /
        frag2VersionIndex.getAssetCount + (U32MOD - 100)) % U32MOD :=
  (stats_fragmentation_amended frag2VersionIndex fragBlockLookup).2
    (by decide) (by decide) (by decide)

/-! ## Claim C7 -/

/-- C7 (counterexample): Go url.Parse applied to the degenerate URI
file:// yields scheme file with an empty Path, and the file branch then
slices Path from index 1, which panics in Go; no file-system block
store is produced. -/
theorem createBlockStore_file_empty_path_panic :
    createBlockStoreForURI wBlockStoreEnv (some ⟨"file", ""⟩) "file://" =
      .panic := by
  decide

/-- C7 (amended): the dispatch of createBlockStoreForURI on the parsed
scheme: abfs and abfss are unimplemented errors; gs and s3 produce the
corresponding remote block store when the external constructors
succeed; file produces the file-system block store on the parsed path
with its first character removed, provided that path is non-empty; and
every other scheme, as well as any unparsable input, is treated as a
local file-system store path on the raw uri. -/
theorem createBlockStore_dispatch (benv : BlockStoreEnv)
    (parsed : Option GoURL) (uri : String) :
    (∀ u, parsed = some u → u.scheme = "abfs" →
      createBlockStoreForURI benv parsed uri =
        .err "azure Gen1 storage not yet implemented") ∧
    (∀ u, parsed = some u → u.scheme = "abfss" →
      createBlockStoreForURI benv parsed uri =
        .err "azure Gen2 storage not yet implemented") ∧
    (∀ u, parsed = some u → u.scheme = "gs" →
      benv.newGCSBlobStore = .ok () → benv.newRemoteBlockStore = .ok () →
      createBlockStoreForURI benv parsed uri = .ok .remoteGCS) ∧
    (∀ u, parsed = some u → u.scheme = "s3" →
      benv.newS3BlobStore = .ok () → benv.newRemoteBlockStore = .ok () →
      createBlockStoreForURI benv parsed uri = .ok .remoteS3) ∧
    (∀ u, parsed = some u → u.scheme = "file" → u.path ≠ "" →
      createBlockStoreForURI benv parsed uri =
        .ok (.fsFromURL (u.path.drop 1))) ∧
    (∀ u, parsed = some u → u.scheme ≠ "gs" → u.scheme ≠ "s3" →
      u.scheme ≠ "abfs" → u.scheme ≠ "abfss" → u.scheme ≠ "file" →
      createBlockStoreForURI benv parsed uri = .ok (.fsLocal uri)) ∧
    (parsed = none →
      createBlockStoreForURI benv parsed uri = .ok (.fsLocal uri)) := by
  refine ⟨?_, ?_, ?_, ?_, ?_, ?_, ?_⟩
  · intro u hp hs
    subst hp
    simp [createBlockStoreForURI, hs]
  · intro u hp hs
    subst hp
    simp [createBlockStoreForURI, hs]
  · intro u hp hs h1 h2
    subst hp
    simp [createBlockStoreForURI, hs, h1, h2]
  · intro u hp hs h1 h2
    subst hp
    simp [createBlockStoreForURI, hs, h1, h2]
  · intro u hp hs hne
    subst hp
    have hlen : 1 ≤ u.path.length := by
      cases hu : u.path with
      | mk data =>
        cases data with
        | nil => exact absurd hu hne
        | cons c cs => simp [String.length]
    simp [createBlockStoreForURI, hs, hlen]
  · intro u hp h1 h2 h3 h4 h5
    subst hp
    simp [createBlockStoreForURI, h1, h2, h3, h4, h5]
  · intro hp
    subst hp
    simp [createBlockStoreForURI]

/-- C7 amended-claim witness: instantiation at a gs URI with succeeding
external constructors. -/
theorem createBlockStore_dispatch_witness :
    createBlockStoreForURI wBlockStoreEnv (some ⟨"gs", "/bkt"⟩)
      "gs://bkt" = .ok .remoteGCS :=
  (createBlockStore_dispatch wBlockStoreEnv (some ⟨"gs", "/bkt"⟩)
    "gs://bkt").2.2.1 ⟨"gs", "/bkt"⟩ rfl rfl rfl rfl

/-! ## Claim C8 -/

/-- C8 (code bug): when no source-zip-paths file is given the zip
scanner is never created, yet after a completed per-version loop the
final checks call Err on it unconditionally, so cloneStore dereferences
a nil bufio.Scanner and panics instead of returning normally. -/
theorem clone_missing_zip_paths_nil_panic (env : CloneScanEnv)
    (hloop : cloneLoop env.processVersion false env.sourceLines
      env.targetLines env.zipLines 0 = .ok ())
    (hsrc : env.sourcesScanErr = none) :
    cloneScanPhase env [] = .nilPanic := by
  simp [cloneScanPhase, hloop, hsrc]

/-- C8 witness: a concrete clone with one version pair, no zip list and
error-free scanners reaches the final checks and hits the nil
dereference. -/
theorem clone_missing_zip_paths_nil_panic_witness :
    cloneScanPhase wCloneScanEnv [] = .nilPanic :=
  clone_missing_zip_paths_nil_panic wCloneScanEnv rfl rfl

/-! ## Claim C5 -/

/-- No group produced by splitOnChar contains the separator. -/
theorem splitOnChar_not_mem (sep : Char) (s : List Char) :
    ∀ g ∈ splitOnChar sep s, sep ∉ g := by
  induction s with
  | nil =>
    intro g hg
    simp only [splitOnChar, List.mem_cons, List.not_mem_nil, or_false] at hg
    subst hg
    simp
  | cons c rest ih =>
    intro g hg
    cases hsplit : splitOnChar sep rest with
    | nil => exact absurd hsplit (splitOnChar_ne_nil sep rest)
    | cons g2 gs =>
      rw [hsplit] at ih
      simp only [splitOnChar, hsplit] at hg
      by_cases hc : c = sep
      · rw [if_pos hc] at hg
        rcases List.mem_cons.mp hg with h | h
        · subst h
          simp
        · exact ih g h
      · rw [if_neg hc] at hg
        rcases List.mem_cons.mp hg with h | h
        · subst h
          intro hm
          rcases List.mem_cons.mp hm with h2 | h2
          · exact hc h2.symm
          · exact ih g2 (List.mem_cons_self g2 gs) h2
        · exact ih g (List.mem_cons_of_mem g2 h)

/-- Every component kept by the Clean stack is non-empty and slash-free
when the incoming components are slash-free. -/
theorem cleanLoop_invariant (rooted : Bool) (comps : List GoStr) :
    ∀ stack : List GoStr,
      (∀ g ∈ stack, g ≠ [] ∧ '/' ∉ g) →
      (∀ g ∈ comps, '/' ∉ g) →
      ∀ g ∈ cleanLoop rooted stack comps, g ≠ [] ∧ '/' ∉ g := by
  induction comps with
  | nil =>
    intro stack hstack _ g hg
    exact hstack g hg
  | cons c cs ih =>
    intro stack hstack hcomps g hg
    have hcs : ∀ g2 ∈ cs, '/' ∉ g2 :=
      fun g2 hg2 => hcomps g2 (List.mem_cons_of_mem c hg2)
    have hcne : '/' ∉ c := hcomps c (List.mem_cons_self c cs)
    by_cases h1 : c = [] ∨ c = ['.']
    · simp only [cleanLoop] at hg
      rw [if_pos h1] at hg
      exact ih stack hstack hcs g hg
    · by_cases h2 : c = ['.', '.']
      · cases stack with
        | nil =>
          simp only [cleanLoop] at hg
          rw [if_neg h1, if_pos h2] at hg
          by_cases hr : rooted = true
          · rw [if_pos hr] at hg
            exact ih [] (by simp) hcs g hg
          · rw [if_neg hr] at hg
            refine ih [['.', '.']] ?_ hcs g hg
            intro g2 hg2
            simp only [List.mem_cons, List.not_mem_nil, or_false] at hg2
            subst hg2
            exact ⟨by simp, by decide⟩
        | cons top rest =>
          simp only [cleanLoop] at hg
          rw [if_neg h1, if_pos h2] at hg
          by_cases h3 : rooted = false ∧ top = ['.', '.']
          · rw [if_pos h3] at hg
            refine ih (['.', '.'] :: top :: rest) ?_ hcs g hg
            intro g2 hg2
            rcases List.mem_cons.mp hg2 with h4 | h4
            · subst h4
              exact ⟨by simp, by decide⟩
            · exact hstack g2 h4
          · rw [if_neg h3] at hg
            exact ih rest
              (fun g2 hg2 => hstack g2 (List.mem_cons_of_mem top hg2))
              hcs g hg
      · simp only [cleanLoop] at hg
        rw [if_neg h1, if_neg h2] at hg
        refine ih (c :: stack) ?_ hcs g hg
        intro g2 hg2
        rcases List.mem_cons.mp hg2 with h4 | h4
        · subst h4
          refine ⟨?_, hcne⟩
          intro hc
          exact h1 (Or.inl hc)
        · exact hstack g2 h4

/-- Joining non-empty components yields the empty path only for the
empty component list. -/
theorem joinComponents_eq_nil (comps : List GoStr)
    (h : ∀ g ∈ comps, g ≠ []) : joinComponents comps = [] → comps = [] := by
  cases comps with
  | nil => intro _; rfl
  | cons c cs =>
    intro hj
    cases cs with
    | nil => exact absurd hj (h c (List.mem_cons_self c []))
    | cons c2 cs2 => simp [joinComponents] at hj

/-- Joining non-empty slash-free components never ends with a slash. -/
theorem joinComponents_getLast_ne_slash (comps : List GoStr)
    (h : ∀ g ∈ comps, g ≠ [] ∧ '/' ∉ g) :
    joinComponents comps = [] ∨
      (joinComponents comps).getLast? ≠ some '/' := by
  induction comps with
  | nil => exact Or.inl rfl
  | cons c cs ih =>
    cases cs with
    | nil =>
      right
      intro hlast
      exact (h c (List.mem_cons_self c [])).2 (List.mem_of_mem_getLast? hlast)
    | cons c2 cs2 =>
      right
      have hne2 : joinComponents (c2 :: cs2) ≠ [] := by
        intro hj
        have := joinComponents_eq_nil (c2 :: cs2)
          (fun g hg => (h g (List.mem_cons_of_mem c hg)).1) hj
        simp at this
      have ihr := ih (fun g hg => h g (List.mem_cons_of_mem c hg))
      rcases ihr with hnil | hlast
      · exact absurd hnil hne2
      · have hsome : ∃ y, (joinComponents (c2 :: cs2)).getLast? = some y := by
          cases hj : (joinComponents (c2 :: cs2)).getLast? with
          | none => exact absurd (List.getLast?_eq_none_iff.mp hj) hne2
          | some y => exact ⟨y, rfl⟩
        obtain ⟨y, hy⟩ := hsome
        have hyne : y ≠ '/' := by
          intro hcontra
          exact hlast (by rw [hy, hcontra])
        have hform : joinComponents (c :: c2 :: cs2) =
            (c ++ ['/']) ++ joinComponents (c2 :: cs2) := by
          simp [joinComponents]
        rw [hform, List.getLast?_append, hy]
        simp only [Option.or_some]
        intro hcontra
        injection hcontra with hcontra
        exact hyne hcontra

/-- Clean never yields the empty path. -/
theorem filepathClean_ne_nil (p : GoStr) : filepathClean p ≠ [] := by
  unfold filepathClean goCleanAssemble
  split
  · simp
  · split
    · simp
    · split
      · simp
      · assumption

/-- A slash can end a cleaned path only as the whole root path. -/
theorem filepathClean_append_slash (p q : GoStr)
    (h : filepathClean p = q ++ ['/']) : q = [] := by
  unfold filepathClean at h
  by_cases hp : p = []
  · rw [if_pos hp] at h
    have := congrArg List.getLast? h
    rw [List.getLast?_concat] at this
    simp at this
  rw [if_neg hp] at h
  have hinv : ∀ g ∈ (cleanLoop (decide (p.head? = some '/')) []
      (splitOnChar '/' p)).reverse, g ≠ [] ∧ '/' ∉ g := by
    intro g hg
    exact cleanLoop_invariant (decide (p.head? = some '/'))
      (splitOnChar '/' p) [] (by simp)
      (fun g2 hg2 => splitOnChar_not_mem '/' p g2 hg2) g
      (List.mem_reverse.mp hg)
  have hbl := joinComponents_getLast_ne_slash _ hinv
  unfold goCleanAssemble at h
  by_cases hr : decide (p.head? = some '/') = true
  · rw [if_pos hr] at h
    cases hb : joinComponents (cleanLoop (decide (p.head? = some '/')) []
        (splitOnChar '/' p)).reverse with
    | nil =>
      rw [hb] at h
      cases q with
      | nil => rfl
      | cons a q2 =>
        have := congrArg List.length h
        simp at this
    | cons b bs =>
      rw [hb] at h
      have hlast := congrArg List.getLast? h
      rw [List.getLast?_concat, List.getLast?_cons_cons] at hlast
      rcases hbl with hnil | hlne
      · rw [hb] at hnil
        simp at hnil
      · rw [hb] at hlne
        exact absurd hlast hlne
  · rw [if_neg hr] at h
    cases hb : joinComponents (cleanLoop (decide (p.head? = some '/')) []
        (splitOnChar '/' p)).reverse with
    | nil =>
      rw [hb] at h
      rw [if_pos rfl] at h
      have := congrArg List.getLast? h
      rw [List.getLast?_concat] at this
      simp at this
    | cons b bs =>
      rw [hb] at h
      have hne : (b :: bs) ≠ [] := by simp
      rw [if_neg hne] at h
      have hlast := congrArg List.getLast? h
      rw [List.getLast?_concat] at hlast
      rcases hbl with hnil | hlne
      · rw [hb] at hnil
        simp at hnil
      · rw [hb] at hlne
        exact absurd hlast hlne

/-- The joined extraction path can never equal the cleaned target
followed by a bare slash. -/
theorem filepathJoin_ne_clean_slash (a b : GoStr) :
    filepathJoin a b ≠ filepathClean a ++ ['/'] := by
  intro h
  by_cases hab : a = [] ∧ b = []
  · rw [filepathJoin, if_pos hab] at h
    have := congrArg List.length h
    simp at this
  · have hq : ∃ p, filepathJoin a b = filepathClean p := by
      unfold filepathJoin
      rw [if_neg hab]
      by_cases ha : a = []
      · exact ⟨b, by rw [if_pos ha]⟩
      · rw [if_neg ha]
        by_cases hb : b = []
        · exact ⟨a, by rw [if_pos hb]⟩
        · exact ⟨a ++ '/' :: b, by rw [if_neg hb]⟩
    obtain ⟨p, hp⟩ := hq
    rw [hp] at h
    exact filepathClean_ne_nil a (filepathClean_append_slash p _ h)

/-- The zip-slip test of the code agrees with the claim reading of
lying strictly inside the cleaned target directory. -/
theorem zipSlipCheck_iff_strictlyInside (tgt name : GoStr) :
    ((filepathClean tgt ++ ['/']).isPrefixOf (filepathJoin tgt name) =
      true) ↔ strictlyInside (filepathJoin tgt name) tgt := by
  rw [List.isPrefixOf_iff_prefix]
  constructor
  · rintro ⟨t, ht⟩
    refine ⟨t, ?_, ?_⟩
    · rintro rfl
      rw [List.append_nil] at ht
      exact filepathJoin_ne_clean_slash tgt name ht.symm
    · rw [← ht]
      simp
  · rintro ⟨rel, hne, hp⟩
    exact ⟨rel, by rw [hp]; simp⟩

/-- C5: a zip entry whose joined path does not lie strictly inside the
cleaned target directory is refused with an error and creates nothing
on disk; an entry whose joined path lies strictly inside is extracted
(a directory is created for a directory entry; the parent directory and
the file are created for a file entry whose open and copy succeed). -/
theorem zip_slip_extraction (env : ExtractEnv) (targetPath : GoStr)
    (f : ZipEntry) (hopen : env.openEntry = .ok ()) :
    (¬ strictlyInside (filepathJoin targetPath f.name) targetPath →
      (extractAndWriteFile env targetPath f).1 =
        .error ("illegal file path: " ++
          String.mk (filepathJoin targetPath f.name)) ∧
      (extractAndWriteFile env targetPath f).2 = []) ∧
    (strictlyInside (filepathJoin targetPath f.name) targetPath →
      (f.isDir = true →
        (extractAndWriteFile env targetPath f).1 = .ok () ∧
        (extractAndWriteFile env targetPath f).2 =
          [.mkdirAll (filepathJoin targetPath f.name)]) ∧
      (f.isDir = false →
        env.openFile (filepathJoin targetPath f.name) = .ok () →
        env.copy = .ok () →
        (extractAndWriteFile env targetPath f).1 = .ok () ∧
        (extractAndWriteFile env targetPath f).2 =
          [.mkdirAll (filepathDir (filepathJoin targetPath f.name)),
           .createFile (filepathJoin targetPath f.name)])) := by
  have hiff := zipSlipCheck_iff_strictlyInside targetPath f.name
  constructor
  · intro hnot
    have hb : (filepathClean targetPath ++ ['/']).isPrefixOf
        (filepathJoin targetPath f.name) = false := by
      cases hb2 : (filepathClean targetPath ++ ['/']).isPrefixOf
          (filepathJoin targetPath f.name) with
      | false => rfl
      | true => exact absurd (hiff.mp hb2) hnot
    constructor
    · simp [extractAndWriteFile, hopen, hb]
    · simp [extractAndWriteFile, hopen, hb]
  · intro hin
    have hb := hiff.mpr hin
    constructor
    · intro hdir
      constructor
      · simp [extractAndWriteFile, hopen, hb, hdir]
      · simp [extractAndWriteFile, hopen, hb, hdir]
    · intro hdir hof hcopy
      constructor
      · simp [extractAndWriteFile, hopen, hb, hdir, hof, hcopy]
      · simp [extractAndWriteFile, hopen, hb, hdir, hof, hcopy]

/-- C5 witness: extracting the file entry s/k into the target directory
out creates out/s and out/s/k (as character lists). -/
theorem zip_slip_extraction_witness :
    (extractAndWriteFile wExtractEnv ['o', 'u', 't']
      ⟨['s', '/', 'k'], false, 420⟩).1 = .ok () ∧
    (extractAndWriteFile wExtractEnv ['o', 'u', 't']
      ⟨['s', '/', 'k'], false, 420⟩).2 =
      [.mkdirAll (filepathDir (filepathJoin ['o', 'u', 't']
          ['s', '/', 'k'])),
       .createFile (filepathJoin ['o', 'u', 't'] ['s', '/', 'k'])] :=
  ((zip_slip_extraction wExtractEnv ['o', 'u', 't']
      ⟨['s', '/', 'k'], false, 420⟩ rfl).2
    ⟨['s', '/', 'k'], by decide, by decide⟩).2 rfl rfl rfl

end Golongtail
